import Mathlib

/-
Verification development for the timetable synchronization engine of the
schedule-bot repository.

The Python sources are shallowly embedded as Lean definitions:

  - app/utils/schedule/parser.py        : extract_professor_names,
                                          extract_lessons_from_timetable_json
  - app/utils/schedule/search_professors.py : the instructor directory cache
  - app/utils/schedule/worker.py        : ensure_faculty_and_group,
                                          delete_group_if_exists,
                                          upsert_lessons_for_group,
                                          upsert_lessons_for_professors,
                                          run_full_sync, run_full_sync_for_group
  - app/utils/schedule/sync_lock.py     : the (unused) single-flight lock
  - app/utils/extracting_schedule/fetcher.py : TimetableClient.request_with_retry

Python strings are modeled as lists of characters; machine-level details
(SQL, asyncio scheduling internals) are modeled by explicit state passing.
Database unique constraints on the lessons table (models.py, uq_lesson_unique)
are modeled as a check performed when a session commits.
-/

/-- Python strings are modeled as lists of characters. -/
abbrev Str := List Char

namespace PyText

/-- Whitespace test used for the regex class backslash-s and str.strip. -/
def isWs (c : Char) : Bool := c.isWhitespace

/-- Python str.strip(): drop whitespace from both ends. -/
def pyStrip (s : Str) : Str :=
  ((s.dropWhile isWs).reverse.dropWhile isWs).reverse

/-- Helper for collapseWs: the boolean records whether the previous
character emitted came from a whitespace run. -/
def collapseAux : Bool → Str → Str
  | _, [] => []
  | lastWs, c :: rest =>
    if isWs c then
      if lastWs then collapseAux true rest
      else ' ' :: collapseAux true rest
    else c :: collapseAux false rest

/-- Models re.sub of one-or-more whitespace with a single space
(as in parser.py extract_professor_names, step 4). -/
def collapseWs (s : Str) : Str := collapseAux false s

/-- Replace every period by a space: models re.sub of a literal dot
with a space (parser.py, step 2). -/
def replaceDots (s : Str) : Str :=
  s.map (fun c => if c = '.' then ' ' else c)

/-- Scan for the first closing parenthesis; return the suffix after it. -/
def findRparen : Str → Option Str
  | [] => none
  | c :: rest => if c = ')' then some rest else findRparen rest

theorem findRparen_length {s t : Str} (h : findRparen s = some t) :
    t.length < s.length := by
  induction s with
  | nil => simp [findRparen] at h
  | cons c rest ih =>
    by_cases hc : c = ')'
    · simp [findRparen, hc] at h
      simp [← h]
    · simp [findRparen, hc] at h
      exact Nat.lt_succ_of_lt (ih h)

/-- Fuel-based worker for removeParenGroups; the fuel only serves to make
the recursion structural and is always at least the string length, so the
fuel-exhausted base case is never reached on a nonempty string. -/
def rpgAux : Nat → Str → Str
  | 0, s => s
  | _ + 1, [] => []
  | fuel + 1, c :: rest =>
    if c = '(' then
      match findRparen rest with
      | some after => rpgAux fuel after
      | none => c :: rpgAux fuel rest
    else c :: rpgAux fuel rest

/-- Models re.sub of a parenthesized group (open paren, any non-close
characters, close paren) with the empty string (parser.py, step 1).
Each match runs from an opening parenthesis to the first closing
parenthesis after it; an opening parenthesis with no closing one
ahead matches nothing and is kept. -/
def removeParenGroups (s : Str) : Str := rpgAux s.length s

/-- State of the remove_unbalanced_brackets loop in parser.py:
the characters written so far and the stack of positions of
unmatched opening parentheses. -/
structure RUBState where
  result : Str
  stack : List Nat

/-- One iteration of the remove_unbalanced_brackets character loop. -/
def rubStep (st : RUBState) (c : Char) : RUBState :=
  if c = '(' then
    { result := st.result ++ [c], stack := st.stack ++ [st.result.length] }
  else if c = ')' then
    if st.stack = [] then st
    else { result := st.result ++ [c], stack := st.stack.dropLast }
  else { result := st.result ++ [c], stack := st.stack }

/-- Deletion of the recorded unmatched-open positions, iterated over the
reversed stack as in the source (del result[pos] for pos in reversed(stack)). -/
def delIndices (r : Str) (ps : List Nat) : Str :=
  ps.foldl (fun acc p => acc.eraseIdx p) r

/-- Models remove_unbalanced_brackets from parser.py. -/
def removeUnbalanced (s : Str) : Str :=
  let st := s.foldl rubStep ⟨[], []⟩
  delIndices st.result st.stack.reverse

/-- Python str.split on a comma. -/
def splitOnComma : Str → List Str
  | [] => [[]]
  | c :: rest =>
    if c = ',' then [] :: splitOnComma rest
    else
      match splitOnComma rest with
      | [] => [[c]]
      | g :: gs => (c :: g) :: gs

end PyText

open PyText

/-- Models extract_professor_names from app/utils/schedule/parser.py.
The Option models a possibly-None argument; a None or empty text is falsy
and yields the empty list. -/
def extract_professor_names (professors_text : Option Str) : List Str :=
  match professors_text with
  | none => []
  | some s =>
    if s = [] then []
    else
      let c1 := removeParenGroups s
      let c2 := replaceDots c1
      let c3 := removeUnbalanced c2
      let c4 := collapseWs (pyStrip c3)
      ((splitOnComma c4).map pyStrip).filter (fun n => n ≠ [])

namespace PyText

theorem dropWhile_head_false {p : Char → Bool} {l : Str} {x : Char} {xs : Str}
    (h : l.dropWhile p = x :: xs) : p x = false := by
  induction l with
  | nil => simp [List.dropWhile] at h
  | cons c rest ih =>
    by_cases hc : p c
    · simp [List.dropWhile, hc] at h
      exact ih h
    · simp [List.dropWhile, hc] at h
      simpa [← h.1] using hc

theorem dropWhile_idem (p : Char → Bool) (l : Str) :
    (l.dropWhile p).dropWhile p = l.dropWhile p := by
  cases h : l.dropWhile p with
  | nil => simp
  | cons x xs => simp [List.dropWhile, dropWhile_head_false h]

/-- Right-strip: drop trailing whitespace. -/
def stripR (l : Str) : Str := (l.reverse.dropWhile isWs).reverse

theorem pyStrip_eq_stripR_dropWhile (s : Str) :
    pyStrip s = stripR (s.dropWhile isWs) := rfl

theorem dropWhile_suffix (p : Char → Bool) (l : Str) :
    ∃ u, l = u ++ l.dropWhile p := by
  induction l with
  | nil => exact ⟨[], rfl⟩
  | cons c rest ih =>
    by_cases hc : p c
    · obtain ⟨u, hu⟩ := ih
      exact ⟨c :: u, by simp [List.dropWhile, hc, ← hu]⟩
    · exact ⟨[], by simp [List.dropWhile, hc]⟩

theorem stripR_append (l : Str) : ∃ t, l = stripR l ++ t := by
  obtain ⟨u, hu⟩ := dropWhile_suffix isWs l.reverse
  refine ⟨u.reverse, ?_⟩
  have := congrArg List.reverse hu
  simpa [stripR] using this

theorem dropWhile_eq_self_of_append {p : Char → Bool} {l m t : Str}
    (hl : l.dropWhile p = l) (hmt : l = m ++ t) : m.dropWhile p = m := by
  cases m with
  | nil => simp
  | cons x xs =>
    have hx : p x = false := by
      by_contra hcon
      have hx' : p x = true := by simpa using hcon
      have : l.dropWhile p = (xs ++ t).dropWhile p := by
        rw [hmt]; simp [List.dropWhile, hx']
      have hlen : l.length ≤ (xs ++ t).length := by
        calc l.length = (l.dropWhile p).length := by rw [hl]
        _ = ((xs ++ t).dropWhile p).length := by rw [this]
        _ ≤ (xs ++ t).length := (List.dropWhile_sublist _).length_le
      simp [hmt] at hlen
    simp [List.dropWhile, hx]

theorem stripR_idem (l : Str) : stripR (stripR l) = stripR l := by
  simp [stripR, dropWhile_idem]

theorem pyStrip_idem (s : Str) : pyStrip (pyStrip s) = pyStrip s := by
  rw [pyStrip_eq_stripR_dropWhile s]
  set A := s.dropWhile isWs with hA
  have hAd : A.dropWhile isWs = A := by rw [hA]; exact dropWhile_idem _ _
  obtain ⟨t, ht⟩ := stripR_append A
  have hpre : (stripR A).dropWhile isWs = stripR A :=
    dropWhile_eq_self_of_append hAd ht
  rw [pyStrip_eq_stripR_dropWhile, hpre, stripR_idem]

theorem mem_pyStrip {a : Char} {s : Str} (h : a ∈ pyStrip s) : a ∈ s := by
  simp only [pyStrip, List.mem_reverse] at h
  have h1 := (List.dropWhile_sublist isWs (l := (s.dropWhile isWs).reverse)).mem h
  rw [List.mem_reverse] at h1
  exact (List.dropWhile_sublist isWs (l := s)).mem h1

theorem mem_collapseAux {a : Char} :
    ∀ (b : Bool) (s : Str), a ∈ collapseAux b s → a = ' ' ∨ a ∈ s := by
  intro b s
  induction s generalizing b with
  | nil => simp [collapseAux]
  | cons c rest ih =>
    intro h
    by_cases hc : isWs c
    · cases b with
      | true =>
        simp only [collapseAux, hc, if_true] at h
        rcases ih true h with h1 | h1
        · exact Or.inl h1
        · exact Or.inr (List.mem_cons_of_mem _ h1)
      | false =>
        simp only [collapseAux, hc, if_true] at h
        rcases List.mem_cons.mp h with h1 | h1
        · exact Or.inl h1
        · rcases ih true h1 with h2 | h2
          · exact Or.inl h2
          · exact Or.inr (List.mem_cons_of_mem _ h2)
    · simp only [collapseAux, hc, if_false] at h
      rcases List.mem_cons.mp h with h1 | h1
      · exact Or.inr (by simp [h1])
      · rcases ih false h1 with h2 | h2
        · exact Or.inl h2
        · exact Or.inr (List.mem_cons_of_mem _ h2)

theorem mem_collapseWs {a : Char} {s : Str} (h : a ∈ collapseWs s) :
    a = ' ' ∨ a ∈ s := mem_collapseAux false s h

theorem mem_rubStep {a : Char} {st : RUBState} {c : Char}
    (h : a ∈ (rubStep st c).result) : a ∈ st.result ∨ a = c := by
  by_cases h1 : c = '('
  · subst h1
    simp [rubStep] at h
    tauto
  · by_cases h2 : c = ')'
    · subst h2
      by_cases h3 : st.stack = []
      · simp [rubStep, h1, h3] at h
        exact Or.inl h
      · simp [rubStep, h1, h3] at h
        tauto
    · simp [rubStep, h1, h2] at h
      tauto

theorem mem_foldl_rubStep {a : Char} :
    ∀ (s : Str) (st : RUBState), a ∈ (s.foldl rubStep st).result →
      a ∈ st.result ∨ a ∈ s := by
  intro s
  induction s with
  | nil => intro st h; exact Or.inl h
  | cons c rest ih =>
    intro st h
    rcases ih (rubStep st c) h with h1 | h1
    · rcases mem_rubStep h1 with h2 | h2
      · exact Or.inl h2
      · exact Or.inr (by simp [h2])
    · exact Or.inr (List.mem_cons_of_mem _ h1)

theorem mem_delIndices {a : Char} :
    ∀ (ps : List Nat) (r : Str), a ∈ delIndices r ps → a ∈ r := by
  intro ps
  induction ps with
  | nil => intro r h; exact h
  | cons p rest ih =>
    intro r h
    have h1 : a ∈ r.eraseIdx p := ih (r.eraseIdx p) h
    exact (List.eraseIdx_sublist r p).mem h1

theorem mem_removeUnbalanced {a : Char} {s : Str} (h : a ∈ removeUnbalanced s) :
    a ∈ s := by
  simp only [removeUnbalanced] at h
  have h1 := mem_delIndices _ _ h
  rcases mem_foldl_rubStep s ⟨[], []⟩ h1 with h2 | h2
  · simp at h2
  · exact h2

theorem not_dot_mem_replaceDots (s : Str) : '.' ∉ replaceDots s := by
  intro h
  simp only [replaceDots, List.mem_map] at h
  obtain ⟨c, _, hc⟩ := h
  by_cases h1 : c = '.'
  · simp [h1] at hc
  · rw [if_neg h1] at hc
    exact h1 hc

theorem splitOnComma_ne_nil (s : Str) : splitOnComma s ≠ [] := by
  cases s with
  | nil => simp [splitOnComma]
  | cons c rest =>
    by_cases hc : c = ','
    · simp [splitOnComma, hc]
    · cases hs : splitOnComma rest with
      | nil => simp [splitOnComma, hc, hs]
      | cons g gs => simp [splitOnComma, hc, hs]

theorem splitOnComma_cons_ne {c : Char} {rest : Str} (hc : ¬ c = ',')
    {g : Str} {gs : List Str} (hs : splitOnComma rest = g :: gs) :
    splitOnComma (c :: rest) = (c :: g) :: gs := by
  simp [splitOnComma, hc, hs]

theorem mem_splitOnComma :
    ∀ {s : Str} {m : Str}, m ∈ splitOnComma s → ∀ a ∈ m, a ∈ s := by
  intro s
  induction s with
  | nil =>
    intro m h a ha
    simp [splitOnComma] at h
    simp [h] at ha
  | cons c rest ih =>
    intro m h a ha
    by_cases hc : c = ','
    · simp only [splitOnComma, hc, if_true] at h
      rcases List.mem_cons.mp h with h1 | h1
      · simp [h1] at ha
      · exact List.mem_cons_of_mem _ (ih h1 a ha)
    · cases hs : splitOnComma rest with
      | nil => exact absurd hs (splitOnComma_ne_nil rest)
      | cons g gs =>
        rw [splitOnComma_cons_ne hc hs] at h
        rcases List.mem_cons.mp h with h1 | h1
        · subst h1
          rcases List.mem_cons.mp ha with h2 | h2
          · simp [h2]
          · have hg : g ∈ splitOnComma rest := by
              rw [hs]; exact List.mem_cons_self g gs
            exact List.mem_cons_of_mem _ (ih hg a h2)
        · have hm : m ∈ splitOnComma rest := by
            rw [hs]; exact List.mem_cons_of_mem _ h1
          exact List.mem_cons_of_mem _ (ih hm a ha)

end PyText

/-- C10: for every input, every name returned by extract_professor_names is
non-empty and already stripped (hence non-empty after stripping) and contains
no period character; a None or empty input yields the empty list. -/
theorem C10_extract_professor_names_clean :
    (∀ t : Option Str, ∀ n ∈ extract_professor_names t,
        n ≠ [] ∧ pyStrip n = n ∧ '.' ∉ n)
    ∧ extract_professor_names none = []
    ∧ extract_professor_names (some []) = [] := by
  refine ⟨?_, rfl, rfl⟩
  intro t n hn
  match t with
  | none => simp [extract_professor_names] at hn
  | some s =>
    by_cases hs : s = []
    · simp [extract_professor_names, hs] at hn
    · simp only [extract_professor_names, if_neg hs, List.mem_filter,
        List.mem_map, ne_eq, decide_not] at hn
      obtain ⟨⟨m, hm, hnm⟩, hne⟩ := hn
      have hnempty : n ≠ [] := by
        intro hcon
        rw [hcon] at hne
        simp at hne
      refine ⟨hnempty, ?_, ?_⟩
      · rw [← hnm]
        exact pyStrip_idem m
      · intro hdot
        have h1 : '.' ∈ m := mem_pyStrip (hnm ▸ hdot)
        have h2 := mem_splitOnComma hm '.' h1
        rcases mem_collapseWs h2 with h3 | h3
        · exact absurd h3 (by decide)
        · exact not_dot_mem_replaceDots _
            (mem_removeUnbalanced (mem_pyStrip h3))

/-- Witness for C10 at a concrete instructor text. -/
theorem C10_extract_professor_names_clean_witness :
    ("Jones B".toList ∈
        extract_professor_names (some ("Smith J., Jones (dean) B.".toList)))
    ∧ ("Jones B".toList ≠ [] ∧ pyStrip ("Jones B".toList) = "Jones B".toList
        ∧ '.' ∉ "Jones B".toList) :=
  ⟨by decide, C10_extract_professor_names_clean.1
      (some ("Smith J., Jones (dean) B.".toList)) _ (by decide)⟩

/-- Python datetime.time values as produced by time.fromisoformat on the
HH colon MM strings of the feed. -/
structure PyTime where
  hour : Nat
  minute : Nat
deriving DecidableEq, Repr

namespace PyText

/-- Numeric value of a decimal digit character. -/
def digitVal (c : Char) : Option Nat :=
  if c.isDigit then some (c.toNat - '0'.toNat) else none

/-- Models time.fromisoformat restricted to the HH colon MM shape used by
the feed; any other shape fails (and the failing entry is skipped by
parse_lesson_time_data, as in the source). -/
def timeFromIso (s : Str) : Option PyTime :=
  match s with
  | [h1, h2, ':', m1, m2] =>
    match digitVal h1, digitVal h2, digitVal m1, digitVal m2 with
    | some a, some b, some c, some d =>
      let h := 10 * a + b
      let m := 10 * c + d
      if h < 24 ∧ m < 60 then some ⟨h, m⟩ else none
    | _, _, _, _ => none
  | _ => none

end PyText

/-- One entry of lessonTimeData: the raw start and end time strings. -/
structure LessonTimeRaw where
  startS : Str
  endS : Str
deriving DecidableEq, Repr

/-- Models parse_lesson_time_data from parser.py: enumerate entries from
index 0; an entry whose times fail to parse is logged and skipped. -/
def parse_lesson_time_data (data : List LessonTimeRaw) :
    List (Nat × (PyTime × PyTime)) :=
  data.enum.filterMap fun p =>
    match PyText.timeFromIso p.2.startS, PyText.timeFromIso p.2.endS with
    | some s, some e => some (p.1, (s, e))
    | _, _ => none

/-- Dictionary lookup lesson_time_map.get(lesson_number, default): the key
may be absent (None lesson number or no such index). -/
def timeMapGet (m : List (Nat × (PyTime × PyTime))) (k : Option Int) :
    Option (PyTime × PyTime) :=
  match k with
  | none => none
  | some i => if i < 0 then none else m.lookup i.toNat

/-- One element of the lessonsContainers (or lessons) array of a
timetable document. -/
structure Container where
  lessonNumber : Option Int
  weekDay : Option Int
  week_day : Option Int
  weekMark : Option Str
  texts : List Str
deriving DecidableEq, Repr

/-- Python a-or-b for integer values: 0 and None are falsy. -/
def pyOrInt (a b : Option Int) : Option Int :=
  match a with
  | some n => if n = 0 then b else some n
  | none => b

/-- Python or-chain over string values with a final default: None and the
empty string are falsy. -/
def firstTruthyStr (l : List (Option Str)) (dflt : Str) : Str :=
  match l with
  | [] => dflt
  | a :: rest =>
    match a with
    | some s => if s = [] then firstTruthyStr rest dflt else s
    | none => firstTruthyStr rest dflt

/-- One timetable JSON document as consumed by the parser and the worker. -/
structure Timetable where
  message : Option Str
  lessonTimeData : Option (List LessonTimeRaw)
  types : Option Str
  typeKey : Option Str
  typesName : Option Str
  lessonsContainers : Option (List Container)
  lessons : Option (List Container)
deriving DecidableEq, Repr

/-- The schedule-type tag of a document: first truthy of the keys types,
type, typesName, else the literal classes. -/
def ttypeOf (tt : Timetable) : Str :=
  firstTruthyStr [tt.types, tt.typeKey, tt.typesName] "classes".toList

/-- Python a-or-b for list values: None and the empty list are falsy. -/
def pyOrContainers (a b : Option (List Container)) : Option (List Container) :=
  match a with
  | some l => if l = [] then b else some l
  | none => b

/-- The container list of a document: lessonsContainers or lessons or
the empty list. -/
def containersOf (tt : Timetable) : List Container :=
  (pyOrContainers tt.lessonsContainers tt.lessons).getD []

/-- The slot-index time map of a document (empty when lessonTimeData is
absent). -/
def timeMapOf (tt : Timetable) : List (Nat × (PyTime × PyTime)) :=
  match tt.lessonTimeData with
  | some d => parse_lesson_time_data d
  | none => []

/-- A canonical lesson record as produced by the normalizer (the rec dict
of parser.py). -/
structure LessonRec where
  group_name : Str
  weekday : Option Int
  lesson_number : Option Int
  subject : Option Str
  professors : Option Str
  rooms : Option Str
  week_mark : Option Str
  type : Str
deriving DecidableEq, Repr

/-- The seven content fields of a record, in source tuple order:
weekday, lesson number, subject, professors, rooms, week mark, type. -/
structure K7 where
  weekday : Option Int
  num : Option Int
  subject : Option Str
  professors : Option Str
  rooms : Option Str
  week_mark : Option Str
  ty : Str
deriving DecidableEq, Repr

/-- The full dedup key of the parser: the seven fields plus the start and
end times resolved from the current document's time map. -/
structure LKey where
  fields : K7
  startT : Option PyTime
  endT : Option PyTime
deriving DecidableEq, Repr

/-- The seven content values extracted from one container (weekday uses the
weekDay key with week_day as or-fallback; texts indices 1, 2, 3 give
subject, professors, rooms, absent indices yield none). -/
def contFields (ty : Str) (c : Container) : K7 :=
  ⟨pyOrInt c.weekDay c.week_day, c.lessonNumber, c.texts.get? 1,
    c.texts.get? 2, c.texts.get? 3, c.weekMark, ty⟩

/-- Extend a seven-field key with the times looked up for its lesson
number in the given time map. -/
def addTimes (tm : List (Nat × (PyTime × PyTime))) (k : K7) : LKey :=
  ⟨k, (timeMapGet tm k.num).map Prod.fst, (timeMapGet tm k.num).map Prod.snd⟩

/-- The lesson_key tuple of parser.py for one container. -/
def keyOfCont (ty : Str) (tm : List (Nat × (PyTime × PyTime)))
    (c : Container) : LKey :=
  addTimes tm (contFields ty c)

/-- The rec dict built for one container. -/
def recOfCont (g : Str) (ty : Str) (c : Container) : LessonRec :=
  { group_name := g
    weekday := pyOrInt c.weekDay c.week_day
    lesson_number := c.lessonNumber
    subject := c.texts.get? 1
    professors := c.texts.get? 2
    rooms := c.texts.get? 3
    week_mark := c.weekMark
    type := ty }

/-- One iteration of the container loop of
extract_lessons_from_timetable_json: drop the container when its key was
already seen in this call, else append its record and key. -/
def processContainer (g : Str) (ty : Str) (tm : List (Nat × (PyTime × PyTime)))
    (acc : List LessonRec × List LKey) (c : Container) :
    List LessonRec × List LKey :=
  let key := keyOfCont ty tm c
  if key ∈ acc.2 then acc
  else (acc.1 ++ [recOfCont g ty c], acc.2 ++ [key])

/-- Process one document: fold its containers with its own schedule type
and time map, threading records and the seen-key set across documents. -/
def processDoc (g : Str) (acc : List LessonRec × List LKey) (tt : Timetable) :
    List LessonRec × List LKey :=
  (containersOf tt).foldl (processContainer g (ttypeOf tt) (timeMapOf tt)) acc

/-- The timetable JSON argument: None (or another falsy value), a single
document, or a list of documents. -/
inductive TtJson where
  | null
  | single (tt : Timetable)
  | docs (tts : List Timetable)
deriving DecidableEq

/-- Models extract_lessons_from_timetable_json from
app/utils/schedule/parser.py. -/
def extract_lessons_from_timetable_json (g : Str) (j : TtJson) :
    List LessonRec :=
  match j with
  | .null => []
  | .single tt => (processDoc g ([], []) tt).1
  | .docs tts =>
    if tts = [] then []
    else (tts.foldl (processDoc g) ([], [])).1

/-- The composite key of claim C7 (weekday, slot, subject, instructors,
room, week parity, type) of an output record. -/
def recKey7 (r : LessonRec) : K7 :=
  ⟨r.weekday, r.lesson_number, r.subject, r.professors, r.rooms,
    r.week_mark, r.type⟩

theorem recKey7_recOfCont (g ty : Str) (c : Container) :
    recKey7 (recOfCont g ty c) = contFields ty c := rfl

/-- The extended dedup key of an output record, relative to a time map. -/
def keyER (tm : List (Nat × (PyTime × PyTime))) (r : LessonRec) : LKey :=
  addTimes tm (recKey7 r)

theorem keyER_recOfCont (tm : List (Nat × (PyTime × PyTime))) (g ty : Str)
    (c : Container) : keyER tm (recOfCont g ty c) = keyOfCont ty tm c := rfl

theorem processContainer_fold_invariant (g ty : Str)
    (tm : List (Nat × (PyTime × PyTime))) :
    ∀ (cs : List Container) (recs : List LessonRec) (seen : List LKey),
      seen.Nodup → (∀ r ∈ recs, keyER tm r ∈ seen) →
      ((recs.map (keyER tm)).Nodup) →
      ((cs.foldl (processContainer g ty tm) (recs, seen)).2.Nodup ∧
        (∀ r ∈ (cs.foldl (processContainer g ty tm) (recs, seen)).1,
          keyER tm r ∈ (cs.foldl (processContainer g ty tm) (recs, seen)).2) ∧
        ((cs.foldl (processContainer g ty tm) (recs, seen)).1.map
          (keyER tm)).Nodup) := by
  intro cs
  induction cs with
  | nil => intro recs seen h1 h2 h3; exact ⟨h1, h2, h3⟩
  | cons c rest ih =>
    intro recs seen h1 h2 h3
    simp only [List.foldl_cons]
    by_cases hk : keyOfCont ty tm c ∈ seen
    · have hstep : processContainer g ty tm (recs, seen) c = (recs, seen) := by
        simp [processContainer, hk]
      rw [hstep]
      exact ih recs seen h1 h2 h3
    · have hstep : processContainer g ty tm (recs, seen) c =
          (recs ++ [recOfCont g ty c], seen ++ [keyOfCont ty tm c]) := by
        simp [processContainer, hk]
      rw [hstep]
      apply ih
      · simp [List.nodup_append, h1, hk]
      · intro r hr
        rcases List.mem_append.mp hr with h | h
        · exact List.mem_append_left _ (h2 r h)
        · simp only [List.mem_singleton] at h
          subst h
          rw [keyER_recOfCont]
          exact List.mem_append_right _ (List.mem_singleton_self _)
      · rw [List.map_append]
        simp only [List.map_cons, List.map_nil]
        rw [List.nodup_append]
        refine ⟨h3, List.nodup_singleton _, ?_⟩
        intro k hkm hks
        simp only [List.mem_singleton] at hks
        subst hks
        rw [keyER_recOfCont] at hkm
        obtain ⟨r, hr, hrk⟩ := List.mem_map.mp hkm
        exact hk (hrk ▸ h2 r hr)

theorem extract_single_keyER_nodup (g : Str) (tt : Timetable) :
    ((extract_lessons_from_timetable_json g (.single tt)).map
      (keyER (timeMapOf tt))).Nodup := by
  have h := processContainer_fold_invariant g (ttypeOf tt) (timeMapOf tt)
      (containersOf tt) [] [] (by simp) (by simp) (by simp)
  simpa [extract_lessons_from_timetable_json, processDoc] using h.2.2

/-- Container used in the concrete C7 scenario. -/
def contA : Container :=
  { lessonNumber := some 0, weekDay := some 1, week_day := none,
    weekMark := none,
    texts := ["x".toList, "Math".toList, "Ivanov".toList, "101".toList] }

/-- First document of the C7 scenario: slot 0 runs 08:00 to 09:00. -/
def docT1 : Timetable :=
  { message := none,
    lessonTimeData := some [⟨"08:00".toList, "09:00".toList⟩],
    types := none, typeKey := none, typesName := none,
    lessonsContainers := some [contA], lessons := none }

/-- Second document of the C7 scenario: the same container, but slot 0
runs 10:00 to 11:00, so the parser-level dedup key differs. -/
def docT2 : Timetable :=
  { docT1 with lessonTimeData := some [⟨"10:00".toList, "11:00".toList⟩] }

/-- C7 counterexample: a call passing two documents whose container lists
are identical across the composite (weekday, slot, subject, instructors,
room, week-parity, type) key but whose lesson-time tables differ produces
two records agreeing on that key, because the dedup key also contains the
start and end times resolved from each document's time table. -/
theorem C7_dedup_counterexample :
    ¬ ((extract_lessons_from_timetable_json "G".toList
        (.docs [docT1, docT2])).map recKey7).Nodup := by decide

/-- C7 amended: the parser deduplicates on the composite key extended with
the start and end times resolved from each document's lessonTimeData; for
a single document passed to one call no two output records agree on the
(weekday, slot, subject, instructors, room, week-parity, type) key, and a
single document containing two containers identical across that key yields
exactly one record. -/
theorem C7_dedup_amended :
    (∀ (g : Str) (tt : Timetable),
        ((extract_lessons_from_timetable_json g (.single tt)).map
          recKey7).Nodup)
    ∧ (∀ (g : Str) (tt : Timetable) (c1 c2 : Container),
        containersOf tt = [c1, c2] →
        contFields (ttypeOf tt) c1 = contFields (ttypeOf tt) c2 →
        (extract_lessons_from_timetable_json g (.single tt)).length = 1) := by
  constructor
  · intro g tt
    have h := extract_single_keyER_nodup g tt
    have heq : (extract_lessons_from_timetable_json g (.single tt)).map
        (keyER (timeMapOf tt)) =
        ((extract_lessons_from_timetable_json g (.single tt)).map
          recKey7).map (addTimes (timeMapOf tt)) := by
      rw [List.map_map]
      rfl
    rw [heq] at h
    exact h.of_map
  · intro g tt c1 c2 hcs hk
    have hkey : keyOfCont (ttypeOf tt) (timeMapOf tt) c2 =
        keyOfCont (ttypeOf tt) (timeMapOf tt) c1 := by
      simp [keyOfCont, hk]
    simp [extract_lessons_from_timetable_json, processDoc, hcs,
      processContainer, hkey]

/-- Witness for C7 amended at a concrete single-document input. -/
theorem C7_dedup_amended_witness :
    (containersOf { docT1 with lessonsContainers := some [contA, contA] } =
        [contA, contA]
      ∧ contFields
          (ttypeOf { docT1 with lessonsContainers := some [contA, contA] })
          contA =
        contFields
          (ttypeOf { docT1 with lessonsContainers := some [contA, contA] })
          contA)
    ∧ (extract_lessons_from_timetable_json "G".toList
        (.single { docT1 with lessonsContainers := some [contA, contA] })).length
        = 1 :=
  ⟨⟨by decide, rfl⟩,
    C7_dedup_amended.2 "G".toList
      { docT1 with lessonsContainers := some [contA, contA] } contA contA
      (by decide) rfl⟩

/-- Outcome of one GET attempt by the HTTP client: either a response with a
status code and an optional parseable JSON body (none models a body that
r.json() fails to parse), or a transport-level failure (timeout,
connection reset) raised by the GET itself. -/
inductive Resp (B : Type) where
  | resp (code : Nat) (body : Option B)
  | transport
deriving DecidableEq, Repr

/-- Exceptions raised by request_with_retry. -/
inductive FetchErr where
  | httpStatus (code : Nat)
  | transport
  | jsonDecode
  | raiseNone
deriving DecidableEq, Repr

/-- Successful results of request_with_retry: a parsed body, a parsed 404
body, or the synthetic not-found marker dict. -/
inductive FetchRes (B : Type) where
  | success (b : B)
  | notFoundBody (b : B)
  | notFoundMarker
deriving DecidableEq, Repr

/-- Observable events of one request_with_retry call: a GET issued, the
polite inter-request delay sleep (which follows every completed GET), and a
backoff sleep of the given duration in seconds. -/
inductive FetchEv where
  | attempt
  | delaySleep
  | backoffSleep (w : ℚ)
deriving DecidableEq, Repr

/-- Prepend events to a loop result. -/
def withEvs {B : Type} (evs : List FetchEv)
    (r : Except FetchErr (FetchRes B) × List FetchEv) :
    Except FetchErr (FetchRes B) × List FetchEv :=
  (r.1, evs ++ r.2)

/-- The retry loop of TimetableClient.request_with_retry
(app/utils/extracting_schedule/fetcher.py), recursing on the number of
remaining attempts; k is the 1-based attempt counter of the source loop and
lastExc the last_exc local. A 404 returns its parsed body or the synthetic
marker; 429 and 5xx and transport errors sleep backoff to the power k and
retry; any other 4xx raises at once; an exhausted loop raises last_exc. -/
def requestLoop {B : Type} (backoff : ℚ) (responses : Nat → Resp B) :
    Nat → Nat → Option FetchErr →
    Except FetchErr (FetchRes B) × List FetchEv
  | 0, _, lastExc =>
    (match lastExc with
      | some e => .error e
      | none => .error .raiseNone, [])
  | rem + 1, k, lastExc =>
    match responses k with
    | .transport =>
      withEvs [.attempt, .backoffSleep (backoff ^ k)]
        (requestLoop backoff responses rem (k + 1) (some .transport))
    | .resp code body =>
      if code < 400 then
        match body with
        | some b => (.ok (.success b), [.attempt, .delaySleep])
        | none =>
          withEvs [.attempt, .delaySleep, .backoffSleep (backoff ^ k)]
            (requestLoop backoff responses rem (k + 1) (some .jsonDecode))
      else if code = 404 then
        match body with
        | some b => (.ok (.notFoundBody b), [.attempt, .delaySleep])
        | none => (.ok .notFoundMarker, [.attempt, .delaySleep])
      else if code = 429 then
        withEvs [.attempt, .delaySleep, .backoffSleep (backoff ^ k)]
          (requestLoop backoff responses rem (k + 1)
            (some (.httpStatus code)))
      else if 500 ≤ code ∧ code < 600 then
        withEvs [.attempt, .delaySleep, .backoffSleep (backoff ^ k)]
          (requestLoop backoff responses rem (k + 1)
            (some (.httpStatus code)))
      else
        (.error (.httpStatus code), [.attempt, .delaySleep])

/-- Models TimetableClient.request_with_retry: run the loop for max_retries
attempts starting at attempt 1 with last_exc = None. The responses oracle
gives the remote's behavior on each attempt. -/
def request_with_retry {B : Type} (maxRetries : Nat) (backoff : ℚ)
    (responses : Nat → Resp B) :
    Except FetchErr (FetchRes B) × List FetchEv :=
  requestLoop backoff responses maxRetries 1 none

/-- Number of GETs issued. -/
def countAttempts (evs : List FetchEv) : Nat := evs.count .attempt

/-- The backoff sleep durations, in order. -/
def backoffs (evs : List FetchEv) : List ℚ :=
  evs.filterMap fun e =>
    match e with
    | .backoffSleep w => some w
    | _ => none

/-- A response that the retry loop retries on: 429, 5xx, or a
transport-level failure. -/
def isRetryResp {B : Type} : Resp B → Prop
  | .transport => True
  | .resp code _ => code = 429 ∨ (500 ≤ code ∧ code < 600)

/-- The exception recorded in last_exc for a retried attempt. -/
def errOf {B : Type} : Resp B → FetchErr
  | .transport => .transport
  | .resp code _ => .httpStatus code

theorem countAttempts_append (a b : List FetchEv) :
    countAttempts (a ++ b) = countAttempts a + countAttempts b :=
  List.count_append _ _ _

theorem backoffs_append (a b : List FetchEv) :
    backoffs (a ++ b) = backoffs a ++ backoffs b :=
  List.filterMap_append _ _ _

/-- The events prepended by one retried attempt at counter k. -/
def retryEvs {B : Type} (backoff : ℚ) (r : Resp B) (k : Nat) : List FetchEv :=
  match r with
  | .transport => [.attempt, .backoffSleep (backoff ^ k)]
  | .resp _ _ => [.attempt, .delaySleep, .backoffSleep (backoff ^ k)]

theorem countAttempts_retryEvs {B : Type} (backoff : ℚ) (r : Resp B)
    (k : Nat) : countAttempts (retryEvs backoff r k) = 1 := by
  cases r <;> simp [retryEvs, countAttempts]

theorem backoffs_retryEvs {B : Type} (backoff : ℚ) (r : Resp B) (k : Nat) :
    backoffs (retryEvs backoff r k) = [backoff ^ k] := by
  cases r <;> simp [backoffs, retryEvs]

theorem requestLoop_retry_step {B : Type} (backoff : ℚ)
    (responses : Nat → Resp B) (k : Nat) (hk : isRetryResp (responses k))
    (rem : Nat) (lastExc : Option FetchErr) :
    requestLoop backoff responses (rem + 1) k lastExc =
      withEvs (retryEvs backoff (responses k) k)
        (requestLoop backoff responses rem (k + 1)
          (some (errOf (responses k)))) := by
  cases hr : responses k with
  | transport => simp [requestLoop, hr, errOf, withEvs, retryEvs]
  | resp code body =>
    rw [hr] at hk
    rcases hk with hc | hc
    · subst hc
      simp [requestLoop, hr, errOf, withEvs, retryEvs]
    · have h1 : ¬ code < 400 := by omega
      have h2 : ¬ code = 404 := by omega
      have h3 : ¬ code = 429 := by omega
      simp [requestLoop, hr, errOf, withEvs, retryEvs, h1, h2, h3, hc]

theorem range_pow_shift (backoff : ℚ) (k m : Nat) :
    (List.range (m + 1)).map (fun j => backoff ^ (k + j)) =
      backoff ^ k :: (List.range m).map (fun j => backoff ^ ((k + 1) + j)) := by
  rw [List.range_succ_eq_map, List.map_cons, List.map_map]
  refine congrArg₂ List.cons (by simp) ?_
  refine List.map_congr_left ?_
  intro j hj
  show backoff ^ (k + (j + 1)) = backoff ^ ((k + 1) + j)
  congr 1
  omega

theorem requestLoop_all_retry {B : Type} (backoff : ℚ)
    (responses : Nat → Resp B) :
    ∀ (rem k : Nat) (lastExc : Option FetchErr),
      (∀ i, k ≤ i → i < k + (rem + 1) → isRetryResp (responses i)) →
      (requestLoop backoff responses (rem + 1) k lastExc).1 =
          .error (errOf (responses (k + rem)))
        ∧ countAttempts
            (requestLoop backoff responses (rem + 1) k lastExc).2 = rem + 1
        ∧ backoffs (requestLoop backoff responses (rem + 1) k lastExc).2 =
          (List.range (rem + 1)).map (fun j => backoff ^ (k + j)) := by
  intro rem
  induction rem with
  | zero =>
    intro k lastExc hretry
    have hk := hretry k (le_refl k) (by omega)
    rw [requestLoop_retry_step backoff responses k hk 0 lastExc]
    have hinner : requestLoop backoff responses 0 (k + 1)
        (some (errOf (responses k))) =
        (.error (errOf (responses k)), []) := by
      simp [requestLoop]
    rw [hinner]
    refine ⟨rfl, ?_, ?_⟩
    · simp only [withEvs, List.append_nil, countAttempts_retryEvs]
    · simp only [withEvs, List.append_nil, backoffs_retryEvs]
      have h1 : List.range 1 = [0] := by decide
      rw [h1]
      simp
  | succ m ih =>
    intro k lastExc hretry
    have hk := hretry k (le_refl k) (by omega)
    have hrest : ∀ i, k + 1 ≤ i → i < (k + 1) + (m + 1) →
        isRetryResp (responses i) := by
      intro i hi1 hi2
      exact hretry i (by omega) (by omega)
    have hmain := ih (k + 1) (some (errOf (responses k))) hrest
    rw [requestLoop_retry_step backoff responses k hk (m + 1) lastExc]
    refine ⟨?_, ?_, ?_⟩
    · simp only [withEvs]
      rw [hmain.1]
      have : (k + 1) + m = k + (m + 1) := by omega
      rw [this]
    · simp only [withEvs, countAttempts_append, countAttempts_retryEvs]
      rw [hmain.2.1]
      omega
    · simp only [withEvs, backoffs_append, backoffs_retryEvs]
      rw [hmain.2.2, range_pow_shift backoff k (m + 1)]
      simp

/-- C5: request_with_retry classifies responses as the claim states: a 404
on the first attempt terminates at once with the parsed body or the
synthetic marker, one attempt, no backoff sleep; any other 4xx on the first
attempt raises at once without retry; when every attempt is a 429, 5xx or
transport failure, attempt k sleeps backoff to the power k, all configured
attempts are used and the last error is raised; a remote answering 500,
500, 200 causes exactly 3 attempts and two backoff sleeps of increasing
duration (given a backoff factor above 1). -/
theorem C5_request_with_retry_classification :
    (∀ (B : Type) (mr : Nat) (backoff : ℚ) (responses : Nat → Resp B)
        (body : Option B),
      1 ≤ mr → responses 1 = .resp 404 body →
      (request_with_retry mr backoff responses).1 =
          .ok (match body with
                | some b => .notFoundBody b
                | none => .notFoundMarker)
        ∧ countAttempts (request_with_retry mr backoff responses).2 = 1
        ∧ backoffs (request_with_retry mr backoff responses).2 = [])
    ∧ (∀ (B : Type) (mr : Nat) (backoff : ℚ) (responses : Nat → Resp B)
        (code : Nat) (body : Option B),
      1 ≤ mr → 400 ≤ code → code < 500 → code ≠ 404 → code ≠ 429 →
      responses 1 = .resp code body →
      (request_with_retry mr backoff responses).1 = .error (.httpStatus code)
        ∧ countAttempts (request_with_retry mr backoff responses).2 = 1
        ∧ backoffs (request_with_retry mr backoff responses).2 = [])
    ∧ (∀ (B : Type) (mr : Nat) (backoff : ℚ) (responses : Nat → Resp B),
      1 ≤ mr → (∀ i, 1 ≤ i → i ≤ mr → isRetryResp (responses i)) →
      (request_with_retry mr backoff responses).1 =
          .error (errOf (responses mr))
        ∧ countAttempts (request_with_retry mr backoff responses).2 = mr
        ∧ backoffs (request_with_retry mr backoff responses).2 =
          (List.range mr).map (fun j => backoff ^ (1 + j)))
    ∧ (∀ (B : Type) (mr : Nat) (backoff : ℚ) (responses : Nat → Resp B)
        (b : B) (b1 b2 : Option B),
      3 ≤ mr → responses 1 = .resp 500 b1 → responses 2 = .resp 500 b2 →
      responses 3 = .resp 200 (some b) →
      (request_with_retry mr backoff responses).1 = .ok (.success b)
        ∧ countAttempts (request_with_retry mr backoff responses).2 = 3
        ∧ backoffs (request_with_retry mr backoff responses).2 =
            [backoff ^ 1, backoff ^ 2]
        ∧ (1 < backoff → backoff ^ 1 < backoff ^ 2)) := by
  refine ⟨?_, ?_, ?_, ?_⟩
  · intro B mr backoff responses body hmr hr
    obtain ⟨c, hc⟩ := Nat.exists_eq_add_of_le hmr
    have hmr1 : mr = c + 1 := by omega
    subst hmr1
    cases body with
    | none =>
      refine ⟨?_, ?_, ?_⟩ <;>
        simp [request_with_retry, requestLoop, hr, countAttempts, backoffs]
    | some b =>
      refine ⟨?_, ?_, ?_⟩ <;>
        simp [request_with_retry, requestLoop, hr, countAttempts, backoffs]
  · intro B mr backoff responses code body hmr h400 h500 h404 h429 hr
    obtain ⟨c, hc⟩ := Nat.exists_eq_add_of_le hmr
    have hmr1 : mr = c + 1 := by omega
    subst hmr1
    have hn1 : ¬ code < 400 := by omega
    have hn2 : ¬ (500 ≤ code ∧ code < 600) := by omega
    refine ⟨?_, ?_, ?_⟩ <;>
      simp [request_with_retry, requestLoop, hr, hn1, hn2, h404, h429,
        countAttempts, backoffs]
  · intro B mr backoff responses hmr hretry
    obtain ⟨c, hc⟩ := Nat.exists_eq_add_of_le hmr
    have hmr1 : mr = c + 1 := by omega
    subst hmr1
    have h := requestLoop_all_retry backoff responses c 1 none
      (fun i h1 h2 => hretry i h1 (by omega))
    refine ⟨?_, h.2.1, h.2.2⟩
    rw [request_with_retry, h.1]
    have : 1 + c = c + 1 := by omega
    rw [this]
  · intro B mr backoff responses b b1 b2 hmr hr1 hr2 hr3
    obtain ⟨c, hc⟩ := Nat.exists_eq_add_of_le hmr
    have hk1 : isRetryResp (responses 1) := by
      rw [hr1]; exact Or.inr (by omega)
    have hk2 : isRetryResp (responses 2) := by
      rw [hr2]; exact Or.inr (by omega)
    have hmr1 : mr = ((c + 1) + 1) + 1 := by omega
    subst hmr1
    rw [request_with_retry,
      requestLoop_retry_step backoff responses 1 hk1 ((c + 1) + 1) none,
      requestLoop_retry_step backoff responses 2 hk2 (c + 1)
        (some (errOf (responses 1)))]
    have hinner : requestLoop backoff responses (c + 1) 3
        (some (errOf (responses 2))) =
        (.ok (.success b), [.attempt, .delaySleep]) := by
      simp [requestLoop, hr3]
    rw [hinner]
    refine ⟨rfl, ?_, ?_, ?_⟩
    · simp only [withEvs, countAttempts_append, countAttempts_retryEvs]
      simp [countAttempts]
    · simp only [withEvs, backoffs_append, backoffs_retryEvs]
      simp [backoffs]
    · intro hb
      have hbpos : (0 : ℚ) < backoff := lt_trans one_pos hb
      calc backoff ^ 1 = backoff * 1 := by ring
        _ < backoff * backoff := by
            exact (mul_lt_mul_left hbpos).mpr hb
        _ = backoff ^ 2 := by ring

/-- Remote oracle of the C5 witness: 500, 500, then 200 with a body. -/
def respSeq500 : Nat → Resp Nat := fun k =>
  if k = 1 then .resp 500 none
  else if k = 2 then .resp 500 none
  else .resp 200 (some 7)

/-- Witness for C5 at the concrete 500, 500, 200 oracle with backoff 2. -/
theorem C5_request_with_retry_classification_witness :
    (3 ≤ 3 ∧ respSeq500 1 = .resp 500 none ∧ respSeq500 2 = .resp 500 none
      ∧ respSeq500 3 = .resp 200 (some 7))
    ∧ ((request_with_retry 3 (2 : ℚ) respSeq500).1 = .ok (.success 7)
        ∧ countAttempts (request_with_retry 3 (2 : ℚ) respSeq500).2 = 3
        ∧ backoffs (request_with_retry 3 (2 : ℚ) respSeq500).2 =
            [(2 : ℚ) ^ 1, (2 : ℚ) ^ 2]
        ∧ ((1 : ℚ) < 2 → (2 : ℚ) ^ 1 < (2 : ℚ) ^ 2)) :=
  ⟨⟨by norm_num, rfl, rfl, rfl⟩,
    C5_request_with_retry_classification.2.2.2 Nat 3 2 respSeq500 7 none none
      (by norm_num) rfl rfl rfl⟩

/-- Truthiness check of the worker on tt_json: isinstance dict and a truthy
message value. -/
def msgTruthy : TtJson → Bool
  | .single tt =>
    match tt.message with
    | some s => s ≠ []
    | none => false
  | _ => false

/-- Row of the faculties table (models.py Faculty). -/
structure FacultyRow where
  id : Nat
  name : Str
deriving DecidableEq, Repr

/-- Row of the groups table (models.py Group). -/
structure GroupRow where
  id : Nat
  group_name : Str
  faculty_id : Option Nat
deriving DecidableEq, Repr

/-- Row of the lessons table (models.py Lesson), without the surrogate id;
the fields are exactly the columns of the uq_lesson_unique constraint, so
that constraint holds exactly when the row list has no duplicates. -/
structure LessonRow where
  group_id : Nat
  weekday : Option Int
  lesson_number : Option Int
  subject : Option Str
  professors : Option Str
  rooms : Option Str
  week_mark : Option Str
  type : Str
deriving DecidableEq, Repr

/-- Row of the professors table (models.py Professor). -/
structure ProfessorRow where
  id : Nat
  name : Str
deriving DecidableEq, Repr

/-- Row of the professor_lessons table (models.py ProfessorLesson), without
the surrogate id; the fields are exactly the columns of
uq_professor_lesson_unique, and also exactly the dedup key of the rebuild. -/
structure ProfessorLessonRow where
  professor_id : Nat
  weekday : Option Int
  lesson_number : Option Int
  subject : Option Str
  rooms : Option Str
  week_mark : Option Str
deriving DecidableEq, Repr

/-- The relational store; nextId models the id autoincrement assigned at
flush time. -/
structure DB where
  faculties : List FacultyRow
  groups : List GroupRow
  lessons : List LessonRow
  professors : List ProfessorRow
  professorLessons : List ProfessorLessonRow
  nextId : Nat
deriving DecidableEq, Repr

/-- Exceptions of the embedded worker code. -/
inductive PyErr where
  | fetchErr
  | integrityError
  | multipleResults
  | keyError
  | attributeError
  | nameError
  | injectedFault
deriving DecidableEq, Repr

/-- A SQLAlchemy session: the committed database and the state of the
current (possibly uncommitted) transaction. flush makes changes visible in
current; commit publishes current; rollback discards it. -/
structure Session where
  committed : DB
  current : DB
deriving DecidableEq, Repr

/-- A freshly opened session. -/
def mkSession (db : DB) : Session := ⟨db, db⟩

/-- session.rollback(). -/
def rollback (s : Session) : Session := ⟨s.committed, s.committed⟩

/-- A lessons row with no NULL among the uq_lesson_unique columns. SQLite
(the configured store) treats rows with a NULL constraint column as never
conflicting, so uniqueness only bites on fully defined rows. -/
def lessonRowFullyDefined (l : LessonRow) : Bool :=
  l.weekday.isSome && l.lesson_number.isSome && l.subject.isSome &&
    l.professors.isSome && l.rooms.isSome && l.week_mark.isSome

/-- The uq_lesson_unique constraint over a lessons table state, with the
SQLite NULL semantics. -/
def lessonsConstraintOK (ls : List LessonRow) : Prop :=
  (ls.filter lessonRowFullyDefined).Nodup

instance (ls : List LessonRow) : Decidable (lessonsConstraintOK ls) := by
  unfold lessonsConstraintOK
  infer_instance

/-- session.commit(): the database enforces uq_lesson_unique on the lessons
table; a violating commit raises IntegrityError (and the transaction is not
published). -/
def commitS (s : Session) : Except PyErr Session :=
  if lessonsConstraintOK s.current.lessons then .ok ⟨s.current, s.current⟩
  else .error .integrityError

/-- One entry of the remote group catalog. -/
structure CatEntry where
  groupName : Option Str
  facultyName : Option Str
deriving DecidableEq, Repr

/-- The JSON answered by the catalog endpoint: a dict with a groups list
(a missing groups key is the dict with an empty list), or a bare list. -/
inductive CatalogJson where
  | dict (entries : List CatEntry)
  | list (entries : List CatEntry)
deriving DecidableEq, Repr

/-- The entries seen by run_full_sync, which accepts both catalog shapes. -/
def catEntries : CatalogJson → List CatEntry
  | .dict es => es
  | .list es => es

/-- The remote service as seen through TimetableClient for one run: the
outcome of fetch_groups and of fetch_timetable_for_group per group name
(the schedule-type index is fixed for the run). -/
structure Remote where
  groupsResp : Except PyErr CatalogJson
  timetable : Str → Except PyErr TtJson

/-- The faculty half of ensure_faculty_and_group: when the name is truthy,
look the faculty up by unique name and create-and-flush it when absent. -/
def ensureFaculty (s : Session) (faculty_name : Option Str) :
    Session × Option FacultyRow :=
  match faculty_name with
  | some fn =>
    if fn = [] then (s, none)
    else
      match s.current.faculties.find? (fun f => decide (f.name = fn)) with
      | some f => (s, some f)
      | none =>
        let f : FacultyRow := ⟨s.current.nextId, fn⟩
        ({ s with current := { s.current with
            faculties := s.current.faculties ++ [f],
            nextId := s.current.nextId + 1 } }, some f)
  | none => (s, none)

/-- Models ensure_faculty_and_group from worker.py: get-or-create the
faculty (when the name is truthy) and the group, with flush making the new
rows and their ids visible in the session. -/
def ensure_faculty_and_group (s : Session) (faculty_name : Option Str)
    (group_name : Str) : Session × GroupRow :=
  let fc := ensureFaculty s faculty_name
  let s1 := fc.1
  match s1.current.groups.find? (fun g => decide (g.group_name = group_name)) with
  | some g => (s1, g)
  | none =>
    let g : GroupRow := ⟨s1.current.nextId, group_name, fc.2.map (·.id)⟩
    ({ s1 with current := { s1.current with
        groups := s1.current.groups ++ [g],
        nextId := s1.current.nextId + 1 } }, g)

/-- Models delete_group_if_exists from worker.py: when a group row with the
name exists, delete its lessons and the row and commit; else report False
without touching the store. -/
def delete_group_if_exists (s : Session) (group_name : Str) :
    Except PyErr (Session × Bool) :=
  match s.current.groups.find? (fun g => decide (g.group_name = group_name)) with
  | none => .ok (s, false)
  | some g =>
    let s1 := { s with current := { s.current with
        lessons := s.current.lessons.filter
          (fun l => decide (¬ l.group_id = g.id)),
        groups := s.current.groups.filter
          (fun gr => decide (¬ gr.id = g.id)) } }
    match commitS s1 with
    | .ok s2 => .ok (s2, true)
    | .error e => .error e

/-- The Lesson row built from one normalized record. -/
def lessonRowOfRec (gid : Nat) (r : LessonRec) : LessonRow :=
  ⟨gid, r.weekday, r.lesson_number, r.subject, r.professors, r.rooms,
    r.week_mark, r.type⟩

/-- Models upsert_lessons_for_group from worker.py: empty records return 0;
else delete the lessons of this group carrying the schedule type of the
first record, insert all records, and return the inserted count. No commit
happens here. -/
def upsert_lessons_for_group (s : Session) (g : GroupRow)
    (records : List LessonRec) : Session × Nat :=
  match records with
  | [] => (s, 0)
  | r0 :: _ =>
    let tn := r0.type
    let kept := s.current.lessons.filter
      (fun l => decide (¬ (l.group_id = g.id ∧ l.type = tn)))
    let newRows := records.map (lessonRowOfRec g.id)
    ({ s with current := { s.current with lessons := kept ++ newRows } },
      records.length)

/-- Python falsiness of the memoized professor id (None or 0). -/
def pyFalsyNat : Option Nat → Bool
  | none => true
  | some 0 => true
  | some _ => false

/-- The professor get-or-create of upsert_lessons_for_professors: consult
the in-run memo dict, else select by exact name (scalar_one_or_none raises
on more than one row), else create and flush. -/
def getOrCreateProf (s : Session) (cache : List (Str × Nat)) (name : Str) :
    Except PyErr (Session × List (Str × Nat) × Nat) :=
  let cached := (cache.find? (fun p => decide (p.1 = name))).map Prod.snd
  if pyFalsyNat cached then
    let hits := s.current.professors.filter (fun p => decide (p.name = name))
    if hits.length > 1 then .error .multipleResults
    else
      match hits with
      | p :: _ => .ok (s, cache ++ [(name, p.id)], p.id)
      | [] =>
        let p : ProfessorRow := ⟨s.current.nextId, name⟩
        .ok ({ s with current := { s.current with
            professors := s.current.professors ++ [p],
            nextId := s.current.nextId + 1 } },
          cache ++ [(name, p.id)], p.id)
  else .ok (s, cache, cached.getD 0)

/-- The inner loop of the rebuild over the professor names of one lesson:
get-or-create each professor and add the derived row unless its key was
already emitted in this rebuild. -/
def rebuildNames (lesson : LessonRow) :
    List Str → Session → List (Str × Nat) → List ProfessorLessonRow →
    Except PyErr (Session × List (Str × Nat) × List ProfessorLessonRow)
  | [], s, cache, added => .ok (s, cache, added)
  | n :: rest, s, cache, added =>
    match getOrCreateProf s cache n with
    | .error e => .error e
    | .ok (s1, cache1, pid) =>
      let key : ProfessorLessonRow :=
        ⟨pid, lesson.weekday, lesson.lesson_number, lesson.subject,
          lesson.rooms, lesson.week_mark⟩
      if key ∈ added then rebuildNames lesson rest s1 cache1 added
      else
        rebuildNames lesson rest
          { s1 with current := { s1.current with
              professorLessons := s1.current.professorLessons ++ [key] } }
          cache1 (added ++ [key])

/-- The outer loop of the rebuild over all Lesson rows. -/
def rebuildLessons :
    List LessonRow → Session → List (Str × Nat) → List ProfessorLessonRow →
    Except PyErr (Session × List (Str × Nat) × List ProfessorLessonRow)
  | [], s, cache, added => .ok (s, cache, added)
  | l :: rest, s, cache, added =>
    let text := pyStrip (l.professors.getD [])
    if text = [] then rebuildLessons rest s cache added
    else
      let names := extract_professor_names (some text)
      if names = [] then rebuildLessons rest s cache added
      else
        match rebuildNames l names s cache added with
        | .error e => .error e
        | .ok (s1, c1, a1) => rebuildLessons rest s1 c1 a1

/-- Models upsert_lessons_for_professors from worker.py: delete every
ProfessorLesson row, then rebuild from the Lesson table with in-run
memoization and duplicate suppression. The except clause of the source
rolls the session back and re-raises; the error is surfaced here and the
callers roll back. -/
def upsert_lessons_for_professors (s : Session) : Except PyErr Session :=
  let s0 := { s with current := { s.current with professorLessons := [] } }
  match rebuildLessons s0.current.lessons s0 [] [] with
  | .error e => .error e
  | .ok (s1, _, _) => .ok s1

namespace PyText

/-- Whitespace-separated words of a string (Python str.split with no
argument): maximal non-whitespace runs, no empties. -/
def wordsAux : Str → Str → List Str
  | [], cur => if cur = [] then [] else [cur.reverse]
  | c :: rest, cur =>
    if isWs c then
      if cur = [] then wordsAux rest []
      else cur.reverse :: wordsAux rest []
    else wordsAux rest (c :: cur)

/-- Python str.split(). -/
def pyWords (s : Str) : List Str := wordsAux s []

/-- Join words with single spaces. -/
def joinSpace : List Str → Str
  | [] => []
  | [w] => w
  | w :: ws => w ++ ' ' :: joinSpace ws

end PyText

/-- Models search_professors._normalize_name: falsy input gives the empty
string, else lower-case, replace periods by spaces and the Cyrillic io by
ie, collapse whitespace via split-and-join, and strip. str.lower is modeled
by Char.toLower. -/
def normalizeName (name : Str) : Str :=
  if name = [] then []
  else
    let s1 := name.map Char.toLower
    let s2 := s1.map (fun c =>
      if c = '.' then ' ' else if c = 'ё' then 'е' else c)
    pyStrip (joinSpace (pyWords s2))

/-- The (Professor, normalized name) directory built from the professors
table, in table order, as loaded by _update_professors_cache. -/
def professorsDirectory (db : DB) : List (ProfessorRow × Str) :=
  db.professors.map (fun p => (p, normalizeName p.name))

/-- Fault injection for the phase bodies of run_full_sync: a true flag
makes the corresponding phase raise a database error at its entry point
(deletePhase: the stale-group deletion block; rebuild: the
upsert_lessons_for_professors call; cleanup: the select opening the
instructor-cleanup block). -/
structure Faults where
  deletePhase : Bool
  rebuild : Bool
  cleanup : Bool
deriving DecidableEq, Repr

/-- No injected faults. -/
def noFaults : Faults := ⟨false, false, false⟩

/-- The process-global state outside any one session: the committed
database, the CACHE_UPDATE_ENABLED gate of worker.py, the
_professors_cache list of search_professors.py, and the (never used)
_sync_lock of sync_lock.py. -/
structure SyncState where
  db : DB
  cacheEnabled : Bool
  cache : List (ProfessorRow × Str)
  syncLockLocked : Bool
deriving DecidableEq, Repr

/-- Models get_cached_professors from search_professors.py: while the gate
is off, return the snapshot with no reload; otherwise reload lazily only
when the cache list is empty (double-checked locking collapses to one
reload in this sequential model), reading the committed professors table. -/
def get_cached_professors (st : SyncState) :
    SyncState × List (ProfessorRow × Str) :=
  if st.cacheEnabled = false then (st, st.cache)
  else if st.cache = [] then
    let newCache := professorsDirectory st.db
    ({ st with cache := newCache }, newCache)
  else (st, st.cache)

/-- Models update_professors_cache from search_professors.py (the forced
reload used at startup): reload unconditionally, except that the inner
_update_professors_cache returns early while the gate is off. -/
def update_professors_cache (st : SyncState) : SyncState :=
  if st.cacheEnabled = false then st
  else { st with cache := professorsDirectory st.db }

/-- The break test of the group loop: `if limit_groups and idx >=
limit_groups` (a limit of 0 is falsy and means no limit). -/
def limitBreak (limit : Option Nat) (idx : Nat) : Bool :=
  match limit with
  | none => false
  | some l => l ≠ 0 && decide (l ≤ idx)

/-- Python set.add on the valid-group name list. -/
def pySetAdd (valid : List Str) (n : Str) : List Str :=
  if n ∈ valid then valid else valid ++ [n]

/-- The try body of one iteration of the group loop of run_full_sync,
given a truthy group name: ensure rows, fetch, classify, upsert, add to
valid before committing. Errors are surfaced to processGroup, which rolls
back and continues as the except clause does. -/
def processGroupNamed (remote : Remote) (s : Session) (valid : List Str)
    (fac : Option Str) (gname : Str) : Session × List Str :=
  let eg := ensure_faculty_and_group s fac gname
  match remote.timetable gname with
  | .error _ => (rollback s, valid)
  | .ok tt =>
    if msgTruthy tt then (eg.1, valid)
    else
      let records := extract_lessons_from_timetable_json gname tt
      if records = [] then (eg.1, valid)
      else
        let up := upsert_lessons_for_group eg.1 eg.2 records
        let valid1 := pySetAdd valid gname
        match commitS up.1 with
        | .ok s3 => (s3, valid1)
        | .error _ => (rollback up.1, valid1)

/-- One iteration of the group loop: a falsy group name is skipped. -/
def processGroup (remote : Remote) (st : Session × List Str)
    (g : CatEntry) : Session × List Str :=
  match g.groupName with
  | none => st
  | some gname =>
    if gname = [] then st
    else processGroupNamed remote st.1 st.2 g.facultyName gname

/-- The group loop of run_full_sync with the enumerate counter and the
limit break. -/
def groupLoop (remote : Remote) (limit : Option Nat) :
    List CatEntry → Nat → Session × List Str → Session × List Str
  | [], _, st => st
  | g :: rest, idx, st =>
    if limitBreak limit idx then st
    else groupLoop remote limit rest (idx + 1) (processGroup remote st g)

/-- The stale-group deletion phase of run_full_sync: delete every group row
whose name is not in the valid set, with its lessons, then commit; any
exception (injected fault or commit failure) is caught, rolled back and
logged, and the run continues. Returns the session and the deleted count
as bound by the source before the try. -/
def deleteStalePhase (faults : Faults) (valid : List Str) (s : Session) :
    Session × Nat :=
  if faults.deletePhase then (rollback s, 0)
  else
    let staleIds := (s.current.groups.filter
      (fun g => decide (¬ g.group_name ∈ valid))).map (·.id)
    let s1 := { s with current := { s.current with
        lessons := s.current.lessons.filter
          (fun l => decide (¬ l.group_id ∈ staleIds)),
        groups := s.current.groups.filter
          (fun g => decide (¬ g.id ∈ staleIds)) } }
    match commitS s1 with
    | .ok s2 => (s2, staleIds.length)
    | .error _ => (rollback s1, staleIds.length)

/-- The rebuild plus instructor-cleanup block of run_full_sync (inside the
cache-gate window). The second component models which of the summary-log
locals existing_profs and deleted_profs end up bound: none means the final
summary log of run_full_sync will read an unbound local and raise
NameError. All exceptions inside the block are caught and rolled back as
in the source. -/
def rebuildAndCleanupPhase (faults : Faults) (s : Session) :
    Session × Option (Nat × Nat) :=
  if faults.rebuild then (rollback s, none)
  else
    match upsert_lessons_for_professors s with
    | .error _ => (rollback s, none)
    | .ok s1 =>
      match commitS s1 with
      | .error _ => (rollback s1, none)
      | .ok s2 =>
        if faults.cleanup then (rollback s2, none)
        else
          let profs := s2.current.professors
          let stale := profs.filter (fun p =>
            decide ((s2.current.professorLessons.filter
              (fun pl => decide (pl.professor_id = p.id))) = []))
          let s3 := { s2 with current := { s2.current with
              professors := s2.current.professors.filter
                (fun p => decide (¬ p.id ∈ stale.map (·.id))) } }
          match commitS s3 with
          | .ok s4 => (s4, some (profs.length, stale.length))
          | .error _ => (rollback s3, some (profs.length, stale.length))

/-- Models run_full_sync from worker.py. A catalog-fetch failure is logged
and re-raised by the outer except, after the finally block has closed the
client and called get_cached_professors; an empty catalog returns early
through the same finally; otherwise the group loop (commit per group,
rollback-and-continue per failed group), the stale-group deletion phase,
the gate-off window around the rebuild and cleanup phases with the gate
restored in a finally, the session teardown, the finally (client close,
get_cached_professors), and the summary logs, which raise NameError when
the rebuild or cleanup phase died before binding its locals. -/
def run_full_sync (remote : Remote) (faults : Faults) (limit : Option Nat)
    (st : SyncState) : SyncState × Except PyErr Unit :=
  match remote.groupsResp with
  | .error e => ((get_cached_professors st).1, .error e)
  | .ok cat =>
    let entries := catEntries cat
    if entries = [] then ((get_cached_professors st).1, .ok ())
    else
      let s0 := mkSession st.db
      let gl := groupLoop remote limit entries 0 (s0, [])
      let del := deleteStalePhase faults gl.2 gl.1
      let st2 : SyncState := { st with cacheEnabled := false }
      let rc := rebuildAndCleanupPhase faults del.1
      let st3 : SyncState :=
        { st2 with cacheEnabled := true, db := rc.1.committed }
      let st4 := (get_cached_professors st3).1
      match rc.2 with
      | none => (st4, .error .nameError)
      | some _ => (st4, .ok ())

/-- The next() scan of run_full_sync_for_group over the catalog entries:
indexing an entry without a groupName key raises KeyError; entries after
the first match are not inspected. -/
def findGroupInfo : List CatEntry → Str → Except PyErr (Option CatEntry)
  | [], _ => .ok none
  | e :: rest, g =>
    match e.groupName with
    | none => .error .keyError
    | some n => if n = g then .ok (some e) else findGroupInfo rest g

/-- Models run_full_sync_for_group from worker.py: look the group up in the
remote catalog; when absent, or when the timetable answers a message, or
when normalization yields no records, delete the group (if stored) and
return 0; else upsert, commit, and return the inserted count. Exceptions
propagate (the finally only closes the client); the function returns the
committed database. -/
def run_full_sync_for_group (remote : Remote) (gname : Str) (db : DB) :
    DB × Except PyErr Nat :=
  let s := mkSession db
  match remote.groupsResp with
  | .error e => (s.committed, .error e)
  | .ok (.list _) => (s.committed, .error .attributeError)
  | .ok (.dict entries) =>
    match findGroupInfo entries gname with
    | .error e => (s.committed, .error e)
    | .ok none =>
      match delete_group_if_exists s gname with
      | .error e => (s.committed, .error e)
      | .ok (s1, _) => (s1.committed, .ok 0)
    | .ok (some entry) =>
      match entry.facultyName with
      | none => (s.committed, .error .keyError)
      | some fn =>
        let eg := ensure_faculty_and_group s (some fn) gname
        match remote.timetable gname with
        | .error e => (eg.1.committed, .error e)
        | .ok tt =>
          if msgTruthy tt then
            match delete_group_if_exists eg.1 gname with
            | .error e => (eg.1.committed, .error e)
            | .ok (s2, _) => (s2.committed, .ok 0)
          else
            let records := extract_lessons_from_timetable_json gname tt
            if records = [] then
              match delete_group_if_exists eg.1 gname with
              | .error e => (eg.1.committed, .error e)
              | .ok (s2, _) => (s2.committed, .ok 0)
            else
              let up := upsert_lessons_for_group eg.1 eg.2 records
              match commitS up.1 with
              | .error e => (up.1.committed, .error e)
              | .ok s3 => (s3.committed, .ok up.2)

theorem ensureFaculty_spec (s : Session) (f : Option Str) :
    (ensureFaculty s f).1.current.groups = s.current.groups
    ∧ (ensureFaculty s f).1.current.lessons = s.current.lessons
    ∧ (ensureFaculty s f).1.current.professors = s.current.professors
    ∧ (ensureFaculty s f).1.current.professorLessons =
        s.current.professorLessons
    ∧ (ensureFaculty s f).1.committed = s.committed := by
  unfold ensureFaculty
  cases f with
  | none => simp
  | some fn =>
    by_cases h : fn = []
    · simp [h]
    · simp only [h, if_false]
      cases hf : s.current.faculties.find? (fun x => decide (x.name = fn)) with
      | none => simp
      | some fr => simp

theorem ensure_spec (s : Session) (f : Option Str) (n : Str) :
    ((ensure_faculty_and_group s f n).1.current.lessons = s.current.lessons
    ∧ (ensure_faculty_and_group s f n).1.current.professors =
        s.current.professors
    ∧ (ensure_faculty_and_group s f n).1.current.professorLessons =
        s.current.professorLessons
    ∧ (ensure_faculty_and_group s f n).1.committed = s.committed)
    ∧ (ensure_faculty_and_group s f n).2.group_name = n
    ∧ (ensure_faculty_and_group s f n).2 ∈
        (ensure_faculty_and_group s f n).1.current.groups
    ∧ ((ensure_faculty_and_group s f n).1.current.groups = s.current.groups
      ∨ ((ensure_faculty_and_group s f n).1.current.groups =
          s.current.groups ++ [(ensure_faculty_and_group s f n).2]
        ∧ ∀ g ∈ s.current.groups, ¬ g.group_name = n)) := by
  obtain ⟨hg, hl, hp, hpl, hc⟩ := ensureFaculty_spec s f
  unfold ensure_faculty_and_group
  cases hfind : (ensureFaculty s f).1.current.groups.find?
      (fun g => decide (g.group_name = n)) with
  | some g =>
    have hname : g.group_name = n := by
      have := List.find?_some hfind
      simpa using this
    have hmem : g ∈ (ensureFaculty s f).1.current.groups :=
      List.mem_of_find?_eq_some hfind
    simp only [hfind]
    exact ⟨⟨hl, hp, hpl, hc⟩, hname, hmem, Or.inl hg⟩
  | none =>
    have hnone : ∀ g ∈ s.current.groups, ¬ g.group_name = n := by
      intro g hgmem
      rw [← hg] at hgmem
      have := List.find?_eq_none.mp hfind g hgmem
      simpa using this
    simp only [hfind]
    exact ⟨⟨hl, hp, hpl, hc⟩, by simp, by simp, Or.inr ⟨by rw [hg], hnone⟩⟩

/-- The group rows of the store carrying a given name. -/
def groupsNamed (db : DB) (n : Str) : List GroupRow :=
  db.groups.filter (fun g => decide (g.group_name = n))

theorem delete_group_clears (s : Session) (n : Str)
    (hnames : ((s.current.groups.map (fun g => g.group_name))).Nodup)
    (hok : lessonsConstraintOK s.current.lessons) :
    ∃ s2 b, delete_group_if_exists s n = .ok (s2, b)
      ∧ (∀ g ∈ s2.current.groups, ¬ g.group_name = n)
      ∧ (∀ g ∈ s.current.groups, g.group_name = n →
          ∀ l ∈ s2.current.lessons, ¬ l.group_id = g.id)
      ∧ (b = false → s2 = s)
      ∧ (b = true → s2.committed = s2.current) := by
  unfold delete_group_if_exists
  cases hfind : s.current.groups.find? (fun g => decide (g.group_name = n)) with
  | none =>
    refine ⟨s, false, rfl, ?_, ?_, fun _ => rfl, by simp⟩
    · intro g hg
      have := List.find?_eq_none.mp hfind g hg
      simpa using this
    · intro g hg hgn
      have := List.find?_eq_none.mp hfind g hg
      simp [hgn] at this
  | some g =>
    have hname : g.group_name = n := by
      have := List.find?_some hfind
      simpa using this
    have hmem : g ∈ s.current.groups := List.mem_of_find?_eq_some hfind
    have heqg : ∀ g' ∈ s.current.groups, g'.group_name = n → g' = g := by
      intro g' hg' hgn'
      exact List.inj_on_of_nodup_map hnames hg' hmem (by rw [hgn', hname])
    have hcommit : lessonsConstraintOK (s.current.lessons.filter
        (fun l => decide (¬ l.group_id = g.id))) := by
      unfold lessonsConstraintOK at hok ⊢
      exact ((List.filter_sublist _).filter _).nodup hok
    simp only [commitS, if_pos hcommit]
    refine ⟨_, true, rfl, ?_, ?_, by simp, fun _ => rfl⟩
    · intro g' hg'
      simp only [List.mem_filter, decide_eq_true_eq] at hg'
      intro hgn'
      exact hg'.2 ((heqg g' hg'.1 hgn') ▸ rfl)
    · intro g' hg' hgn' l hl
      have hg'g : g' = g := heqg g' hg' hgn'
      simp only [List.mem_filter, decide_eq_true_eq] at hl
      rw [hg'g]
      exact hl.2

theorem processContainer_fold_type (g ty : Str)
    (tm : List (Nat × (PyTime × PyTime))) :
    ∀ (cs : List Container) (recs : List LessonRec) (seen : List LKey),
      (∀ r ∈ recs, r.type = ty) →
      ∀ r ∈ (cs.foldl (processContainer g ty tm) (recs, seen)).1,
        r.type = ty := by
  intro cs
  induction cs with
  | nil => intro recs seen h; exact h
  | cons c rest ih =>
    intro recs seen h
    simp only [List.foldl_cons]
    by_cases hk : keyOfCont ty tm c ∈ seen
    · rw [show processContainer g ty tm (recs, seen) c = (recs, seen) by
        simp [processContainer, hk]]
      exact ih recs seen h
    · rw [show processContainer g ty tm (recs, seen) c =
          (recs ++ [recOfCont g ty c], seen ++ [keyOfCont ty tm c]) by
        simp [processContainer, hk]]
      apply ih
      intro r hr
      rcases List.mem_append.mp hr with h1 | h1
      · exact h r h1
      · simp only [List.mem_singleton] at h1
        subst h1
        rfl

theorem extract_single_type (g : Str) (tt : Timetable) :
    ∀ r ∈ extract_lessons_from_timetable_json g (.single tt),
      r.type = ttypeOf tt := by
  intro r hr
  exact processContainer_fold_type g (ttypeOf tt) (timeMapOf tt)
    (containersOf tt) [] [] (by simp) r
    (by simpa [extract_lessons_from_timetable_json, processDoc] using hr)

theorem extract_single_key7_nodup (g : Str) (tt : Timetable) :
    ((extract_lessons_from_timetable_json g (.single tt)).map
      recKey7).Nodup := by
  have h := extract_single_keyER_nodup g tt
  have heq : (extract_lessons_from_timetable_json g (.single tt)).map
      (keyER (timeMapOf tt)) =
      ((extract_lessons_from_timetable_json g (.single tt)).map
        recKey7).map (addTimes (timeMapOf tt)) := by
    rw [List.map_map]
    rfl
  rw [heq] at h
  exact h.of_map

/-- A lessons row as a function of the group id and the seven-field key. -/
def rowOfKey (gid : Nat) (k : K7) : LessonRow :=
  ⟨gid, k.weekday, k.num, k.subject, k.professors, k.rooms, k.week_mark, k.ty⟩

theorem lessonRowOfRec_eq (gid : Nat) (r : LessonRec) :
    lessonRowOfRec gid r = rowOfKey gid (recKey7 r) := rfl

theorem rowOfKey_inj (gid : Nat) : Function.Injective (rowOfKey gid) := by
  intro k1 k2 h
  cases k1
  cases k2
  simp [rowOfKey] at h
  simp [h.1, h.2.1, h.2.2.1, h.2.2.2.1, h.2.2.2.2.1, h.2.2.2.2.2]

theorem rows_nodup_of_keys {gid : Nat} {records : List LessonRec}
    (h : (records.map recKey7).Nodup) :
    (records.map (lessonRowOfRec gid)).Nodup := by
  have : records.map (lessonRowOfRec gid) =
      (records.map recKey7).map (rowOfKey gid) := by
    rw [List.map_map]; rfl
  rw [this]
  exact h.map (rowOfKey_inj gid)

/-- A record with no None among the fields that become the NULL-capable
constraint columns. -/
def recFullyDefined (r : LessonRec) : Bool :=
  r.weekday.isSome && r.lesson_number.isSome && r.subject.isSome &&
    r.professors.isSome && r.rooms.isSome && r.week_mark.isSome

theorem filterFD_map (gid : Nat) (records : List LessonRec) :
    (records.map (lessonRowOfRec gid)).filter lessonRowFullyDefined =
      (records.filter recFullyDefined).map (lessonRowOfRec gid) := by
  rw [List.filter_map]
  rfl

theorem keys_nodup_of_rows {gid : Nat} {records : List LessonRec}
    (h : (records.map (lessonRowOfRec gid)).Nodup) :
    (records.map recKey7).Nodup := by
  have heq : records.map (lessonRowOfRec gid) =
      (records.map recKey7).map (rowOfKey gid) := by
    rw [List.map_map]; rfl
  rw [heq] at h
  exact h.of_map

/-- The lessons table after the delete-then-insert of one group and type. -/
def upsertLessons (ls : List LessonRow) (gid : Nat) (tn : Str)
    (records : List LessonRec) : List LessonRow :=
  ls.filter (fun l => decide (¬ (l.group_id = gid ∧ l.type = tn))) ++
    records.map (lessonRowOfRec gid)

theorem upsert_commit_shape (s : Session) (g : GroupRow) (r0 : LessonRec)
    (rest : List LessonRec)
    (hold : lessonsConstraintOK s.current.lessons)
    (hbatch : (((r0 :: rest).filter recFullyDefined).map recKey7).Nodup)
    (htype : ∀ r ∈ r0 :: rest, r.type = r0.type) :
    ∃ s3, commitS (upsert_lessons_for_group s g (r0 :: rest)).1 = .ok s3
      ∧ s3.committed = s3.current
      ∧ s3.current = { s.current with
          lessons := upsertLessons s.current.lessons g.id r0.type (r0 :: rest) } := by
  have hshape : (upsert_lessons_for_group s g (r0 :: rest)).1.current.lessons =
      upsertLessons s.current.lessons g.id r0.type (r0 :: rest) := rfl
  have hconstraint : lessonsConstraintOK
      ((upsert_lessons_for_group s g (r0 :: rest)).1.current.lessons) := by
    rw [hshape]
    unfold lessonsConstraintOK upsertLessons
    rw [List.filter_append, List.nodup_append]
    refine ⟨?_, ?_, ?_⟩
    · exact (((List.filter_sublist _).filter _)).nodup hold
    · rw [filterFD_map]
      exact rows_nodup_of_keys hbatch
    · intro a ha hb
      have ha1 : a ∈ s.current.lessons.filter
          (fun l => decide (¬ (l.group_id = g.id ∧ l.type = r0.type))) :=
        (List.filter_sublist _).mem ha
      simp only [List.mem_filter, decide_eq_true_eq] at ha1
      rw [filterFD_map] at hb
      obtain ⟨r, hr, hra⟩ := List.mem_map.mp hb
      have hrrec : r ∈ r0 :: rest := (List.filter_sublist _).mem hr
      apply ha1.2
      rw [← hra]
      exact ⟨rfl, htype r hrrec⟩
  have hcur : (upsert_lessons_for_group s g (r0 :: rest)).1.current =
      { s.current with
        lessons := upsertLessons s.current.lessons g.id r0.type (r0 :: rest) } := rfl
  refine ⟨⟨(upsert_lessons_for_group s g (r0 :: rest)).1.current,
      (upsert_lessons_for_group s g (r0 :: rest)).1.current⟩, ?_, rfl, ?_⟩
  · simp [commitS, hconstraint]
  · exact hcur

theorem upsert_commit_fails (s : Session) (g : GroupRow) (r0 : LessonRec)
    (rest : List LessonRec)
    (hdup : ¬ (((r0 :: rest).filter recFullyDefined).map recKey7).Nodup) :
    commitS (upsert_lessons_for_group s g (r0 :: rest)).1 =
      .error .integrityError := by
  have hshape : (upsert_lessons_for_group s g (r0 :: rest)).1.current.lessons =
      upsertLessons s.current.lessons g.id r0.type (r0 :: rest) := rfl
  have hfail : ¬ lessonsConstraintOK
      ((upsert_lessons_for_group s g (r0 :: rest)).1.current.lessons) := by
    rw [hshape]
    unfold lessonsConstraintOK upsertLessons
    rw [List.filter_append, List.nodup_append]
    intro hcon
    apply hdup
    have hnd := hcon.2.1
    rw [filterFD_map] at hnd
    exact keys_nodup_of_rows hnd
  simp [commitS, hfail]

theorem ensure_names_nodup (s : Session) (f : Option Str) (n : Str)
    (hnames : ((s.current.groups.map (fun g => g.group_name))).Nodup) :
    (((ensure_faculty_and_group s f n).1.current.groups.map
      (fun g => g.group_name))).Nodup := by
  have hens := ensure_spec s f n
  rcases hens.2.2.2 with he | ⟨he, hnone⟩
  · rw [he]; exact hnames
  · rw [he, List.map_append]
    rw [List.nodup_append]
    refine ⟨hnames, by simp, ?_⟩
    intro x hx hx2
    simp only [List.map_cons, List.map_nil, List.mem_singleton] at hx2
    obtain ⟨g, hg, hgx⟩ := List.mem_map.mp hx
    exact hnone g hg (by rw [hgx, hx2, hens.2.1])

theorem ensure_then_delete (db : DB) (fn : Str) (gname : Str)
    (hok : lessonsConstraintOK db.lessons)
    (hnames : ((db.groups.map (fun g => g.group_name))).Nodup) :
    ∃ s2, delete_group_if_exists
        (ensure_faculty_and_group (mkSession db) (some fn) gname).1 gname =
        .ok (s2, true)
      ∧ s2.committed = s2.current
      ∧ (∀ g ∈ s2.committed.groups, ¬ g.group_name = gname)
      ∧ (∀ g ∈ db.groups, g.group_name = gname →
          ∀ l ∈ s2.committed.lessons, ¬ l.group_id = g.id) := by
  have hens := ensure_spec (mkSession db) (some fn) gname
  have hlessons : (ensure_faculty_and_group (mkSession db) (some fn)
      gname).1.current.lessons = db.lessons := hens.1.1
  have hnodup2 := ensure_names_nodup (mkSession db) (some fn) gname hnames
  obtain ⟨s2, b, heq, hno, hless, hbf, hbt⟩ :=
    delete_group_clears (ensure_faculty_and_group (mkSession db) (some fn)
      gname).1 gname hnodup2 (by rw [hlessons]; exact hok)
  have hb : b = true := by
    by_contra hcon
    have hb0 : b = false := by
      cases b
      · rfl
      · exact absurd rfl hcon
    have hs2 := hbf hb0
    have hmem := hens.2.2.1
    have hname := hens.2.1
    rw [← hs2] at hmem
    exact hno _ hmem hname
  subst hb
  have hcc := hbt rfl
  refine ⟨s2, heq, hcc, ?_, ?_⟩
  · rw [hcc]; exact hno
  · intro g hg hgn l hl
    rw [hcc] at hl
    have hgmem : g ∈ (ensure_faculty_and_group (mkSession db) (some fn)
        gname).1.current.groups := by
      rcases hens.2.2.2 with he | ⟨he, _⟩
      · rw [he]; exact hg
      · rw [he]; exact List.mem_append_left _ hg
    exact hless g hgmem hgn l hl

/-- C6 amended: syncGroup deletes the group and returns 0 in each of the
three absence cases (not in the catalog, a message document, zero
normalized records); when records exist it upserts the group's lessons of
the document's type and returns the inserted count, provided the records
are pairwise distinct on the storage uniqueness key (restricted to the
fully defined rows that SQLite actually checks); a batch with duplicates
on that key violates uq_lesson_unique and the call raises IntegrityError
instead of returning a count. -/
theorem C6_syncGroup_outcomes :
    ∀ (remote : Remote) (db : DB) (gname : Str) (entries : List CatEntry),
      lessonsConstraintOK db.lessons →
      ((db.groups.map (fun g => g.group_name))).Nodup →
      remote.groupsResp = .ok (.dict entries) →
      ((findGroupInfo entries gname = .ok none →
        (run_full_sync_for_group remote gname db).2 = .ok 0
        ∧ (∀ g ∈ (run_full_sync_for_group remote gname db).1.groups,
            ¬ g.group_name = gname)
        ∧ (∀ g ∈ db.groups, g.group_name = gname →
            ∀ l ∈ (run_full_sync_for_group remote gname db).1.lessons,
              ¬ l.group_id = g.id))
      ∧ (∀ entry fn tt, findGroupInfo entries gname = .ok (some entry) →
          entry.facultyName = some fn → remote.timetable gname = .ok tt →
          msgTruthy tt = true →
          (run_full_sync_for_group remote gname db).2 = .ok 0
          ∧ (∀ g ∈ (run_full_sync_for_group remote gname db).1.groups,
              ¬ g.group_name = gname)
          ∧ (∀ g ∈ db.groups, g.group_name = gname →
              ∀ l ∈ (run_full_sync_for_group remote gname db).1.lessons,
                ¬ l.group_id = g.id))
      ∧ (∀ entry fn tt, findGroupInfo entries gname = .ok (some entry) →
          entry.facultyName = some fn → remote.timetable gname = .ok tt →
          msgTruthy tt = false →
          extract_lessons_from_timetable_json gname tt = [] →
          (run_full_sync_for_group remote gname db).2 = .ok 0
          ∧ (∀ g ∈ (run_full_sync_for_group remote gname db).1.groups,
              ¬ g.group_name = gname)
          ∧ (∀ g ∈ db.groups, g.group_name = gname →
              ∀ l ∈ (run_full_sync_for_group remote gname db).1.lessons,
                ¬ l.group_id = g.id))
      ∧ (∀ entry fn tt r0 rest,
          findGroupInfo entries gname = .ok (some entry) →
          entry.facultyName = some fn → remote.timetable gname = .ok tt →
          msgTruthy tt = false →
          extract_lessons_from_timetable_json gname tt = r0 :: rest →
          (∀ r ∈ r0 :: rest, r.type = r0.type) →
          (((r0 :: rest).filter recFullyDefined).map recKey7).Nodup →
          (run_full_sync_for_group remote gname db).2 =
            .ok (r0 :: rest).length
          ∧ ∃ gr, gr ∈ (run_full_sync_for_group remote gname db).1.groups
              ∧ gr.group_name = gname
              ∧ (run_full_sync_for_group remote gname db).1.lessons.filter
                  (fun l => decide (l.group_id = gr.id ∧ l.type = r0.type)) =
                (r0 :: rest).map (lessonRowOfRec gr.id))
      ∧ (∀ entry fn tt r0 rest,
          findGroupInfo entries gname = .ok (some entry) →
          entry.facultyName = some fn → remote.timetable gname = .ok tt →
          msgTruthy tt = false →
          extract_lessons_from_timetable_json gname tt = r0 :: rest →
          ¬ (((r0 :: rest).filter recFullyDefined).map recKey7).Nodup →
          (run_full_sync_for_group remote gname db).2 =
            .error .integrityError)) := by
  intro remote db gname entries hok hnames hcat
  refine ⟨?_, ?_, ?_, ?_, ?_⟩
  · intro hfound
    obtain ⟨s2, b, heq, hno, hless, hbf, hbt⟩ :=
      delete_group_clears (mkSession db) gname hnames hok
    have hcc : s2.committed = s2.current := by
      cases b
      · rw [hbf rfl]; rfl
      · exact hbt rfl
    have hrun : run_full_sync_for_group remote gname db =
        (s2.committed, .ok 0) := by
      unfold run_full_sync_for_group
      simp only [hcat, hfound, heq]
    rw [hrun]
    refine ⟨rfl, ?_, ?_⟩
    · intro g hg
      exact hno g (by rw [← hcc]; exact hg)
    · intro g hg hgn l hl
      exact hless g hg hgn l (by rw [← hcc]; exact hl)
  · intro entry fn tt hfound hfac htt hmsg
    obtain ⟨s2, heq, hcc, hno, hless⟩ := ensure_then_delete db fn gname hok hnames
    have hrun : run_full_sync_for_group remote gname db =
        (s2.committed, .ok 0) := by
      unfold run_full_sync_for_group
      simp only [hcat, hfound, hfac, htt, hmsg, heq, if_true]
    rw [hrun]
    exact ⟨rfl, hno, hless⟩
  · intro entry fn tt hfound hfac htt hmsg hrec
    obtain ⟨s2, heq, hcc, hno, hless⟩ := ensure_then_delete db fn gname hok hnames
    have hrun : run_full_sync_for_group remote gname db =
        (s2.committed, .ok 0) := by
      unfold run_full_sync_for_group
      simp only [hcat, hfound, hfac, htt, hmsg, hrec, heq, if_false,
        Bool.false_eq_true, reduceIte]
    rw [hrun]
    exact ⟨rfl, hno, hless⟩
  · intro entry fn tt r0 rest hfound hfac htt hmsg hrec htype hbatch
    have hens := ensure_spec (mkSession db) (some fn) gname
    obtain ⟨s3, hcommit, hcc, hcur⟩ := upsert_commit_shape
      (ensure_faculty_and_group (mkSession db) (some fn) gname).1
      (ensure_faculty_and_group (mkSession db) (some fn) gname).2
      r0 rest (by rw [hens.1.1]; exact hok) hbatch htype
    have hrun : run_full_sync_for_group remote gname db =
        (s3.committed, .ok (r0 :: rest).length) := by
      unfold run_full_sync_for_group
      simp only [hcat, hfound, hfac, htt, hmsg, hrec, hcommit,
        Bool.false_eq_true, reduceIte]
      simp
      rfl
    rw [hrun]
    refine ⟨rfl, ⟨(ensure_faculty_and_group (mkSession db) (some fn) gname).2,
      ?_, hens.2.1, ?_⟩⟩
    · rw [hcc, hcur]
      exact hens.2.2.1
    · rw [hcc, hcur]
      show (upsertLessons (ensure_faculty_and_group (mkSession db) (some fn)
          gname).1.current.lessons _ _ _).filter _ = _
      unfold upsertLessons
      rw [List.filter_append]
      have h1 : ((ensure_faculty_and_group (mkSession db) (some fn)
          gname).1.current.lessons.filter (fun l => decide (¬ (l.group_id =
            (ensure_faculty_and_group (mkSession db) (some fn) gname).2.id ∧
            l.type = r0.type)))).filter
          (fun l => decide (l.group_id = (ensure_faculty_and_group
            (mkSession db) (some fn) gname).2.id ∧ l.type = r0.type)) = [] := by
        rw [List.filter_eq_nil_iff]
        intro l hl
        simp only [List.mem_filter, decide_eq_true_eq] at hl
        simp only [decide_eq_true_eq]
        exact hl.2
      have h2 : (((r0 :: rest).map (lessonRowOfRec (ensure_faculty_and_group
          (mkSession db) (some fn) gname).2.id)).filter
          (fun l => decide (l.group_id = (ensure_faculty_and_group
            (mkSession db) (some fn) gname).2.id ∧ l.type = r0.type))) =
          (r0 :: rest).map (lessonRowOfRec (ensure_faculty_and_group
            (mkSession db) (some fn) gname).2.id) := by
        rw [List.filter_eq_self]
        intro l hl
        obtain ⟨r, hr, hrl⟩ := List.mem_map.mp hl
        simp only [decide_eq_true_eq]
        rw [← hrl]
        exact ⟨rfl, htype r hr⟩
      rw [h1, h2, List.nil_append]
  · intro entry fn tt r0 rest hfound hfac htt hmsg hrec hdup
    have hfail := upsert_commit_fails
      (ensure_faculty_and_group (mkSession db) (some fn) gname).1
      (ensure_faculty_and_group (mkSession db) (some fn) gname).2
      r0 rest hdup
    unfold run_full_sync_for_group
    simp only [hcat, hfound, hfac, htt, hmsg, hrec, hfail,
      Bool.false_eq_true, reduceIte]
    simp

/-- The empty store. -/
def emptyDB : DB := ⟨[], [], [], [], [], 1⟩

/-- Fully-NULL-free variant of the C7 container (a week mark is present so
the stored rows carry no NULL constraint column). -/
def contB : Container := { contA with weekMark := some "every".toList }

/-- C6 scenario documents: identical containers, different time tables. -/
def docB1 : Timetable := { docT1 with lessonsContainers := some [contB] }

/-- Companion document with the other time table. -/
def docB2 : Timetable := { docT2 with lessonsContainers := some [contB] }

/-- Remote for the C6 counterexample: the group exists in the catalog and
its timetable is a two-document list that normalizes to two records equal
on every stored column. -/
def remoteC6 : Remote :=
  { groupsResp := .ok (.dict [⟨some "G".toList, some "F".toList⟩]),
    timetable := fun _ => .ok (.docs [docB1, docB2]) }

/-- C6 counterexample: a syncGroup call in the found-with-records case
raises IntegrityError from the uq_lesson_unique constraint instead of
returning the inserted count, because the two-document response produced
two records identical on every stored column. -/
theorem C6_syncGroup_counterexample :
    (run_full_sync_for_group remoteC6 ("G".toList) emptyDB).2 =
      .error .integrityError := by rfl

/-- Store of the C6 witness: one group with one lesson. -/
def dbG : DB :=
  { faculties := [], groups := [⟨5, "G".toList, none⟩],
    lessons := [⟨5, some 1, some 2, some "S".toList, some "P".toList,
      some "R".toList, some "every".toList, "classes".toList⟩],
    professors := [], professorLessons := [], nextId := 6 }

/-- Remote of the C6 witness: the catalog no longer contains the group. -/
def remoteC6b : Remote :=
  { groupsResp := .ok (.dict []), timetable := fun _ => .ok .null }

/-- Witness for C6 amended: the absent-from-catalog branch at a concrete
store deletes the stored group and returns 0. -/
theorem C6_syncGroup_outcomes_witness :
    (lessonsConstraintOK dbG.lessons
      ∧ ((dbG.groups.map (fun g => g.group_name))).Nodup
      ∧ remoteC6b.groupsResp = .ok (.dict [])
      ∧ findGroupInfo [] ("G".toList) = .ok none)
    ∧ ((run_full_sync_for_group remoteC6b ("G".toList) dbG).2 = .ok 0
      ∧ (∀ g ∈ (run_full_sync_for_group remoteC6b ("G".toList) dbG).1.groups,
          ¬ g.group_name = ("G".toList))
      ∧ (∀ g ∈ dbG.groups, g.group_name = ("G".toList) →
          ∀ l ∈ (run_full_sync_for_group remoteC6b ("G".toList) dbG).1.lessons,
            ¬ l.group_id = g.id)) :=
  ⟨⟨by decide, by decide, rfl, rfl⟩,
    (C6_syncGroup_outcomes remoteC6b dbG ("G".toList) [] (by decide)
      (by decide) rfl).1 rfl⟩

theorem commitS_ok_elim {s s' : Session} (h : commitS s = .ok s') :
    lessonsConstraintOK s.current.lessons
      ∧ s' = ⟨s.current, s.current⟩ := by
  unfold commitS at h
  by_cases hc : lessonsConstraintOK s.current.lessons
  · simp only [hc, if_true] at h
    exact ⟨hc, by cases h; rfl⟩
  · simp [hc] at h

theorem ensureFaculty_noop (s : Session) (fn : Str)
    (hf : fn ≠ [] → ∃ fr ∈ s.current.faculties, fr.name = fn) :
    (ensureFaculty s (some fn)).1 = s := by
  unfold ensureFaculty
  by_cases h : fn = []
  · simp [h]
  · simp only [h, if_false]
    cases hfind : s.current.faculties.find? (fun f => decide (f.name = fn)) with
    | some f => rfl
    | none =>
      exfalso
      obtain ⟨fr, hf1, hf2⟩ := hf h
      have := List.find?_eq_none.mp hfind fr hf1
      simp [hf2] at this

theorem ensureFaculty_provides (s : Session) (fn : Str) (h : fn ≠ []) :
    ∃ fr ∈ (ensureFaculty s (some fn)).1.current.faculties, fr.name = fn := by
  unfold ensureFaculty
  simp only [h, if_false]
  cases hfind : s.current.faculties.find? (fun f => decide (f.name = fn)) with
  | some f =>
    refine ⟨f, List.mem_of_find?_eq_some hfind, ?_⟩
    have := List.find?_some hfind
    simpa using this
  | none => exact ⟨⟨s.current.nextId, fn⟩, by simp, rfl⟩

theorem ensure_faculties_eq (s : Session) (f : Option Str) (n : Str) :
    (ensure_faculty_and_group s f n).1.current.faculties =
      (ensureFaculty s f).1.current.faculties := by
  unfold ensure_faculty_and_group
  cases hfind : (ensureFaculty s f).1.current.groups.find?
      (fun g => decide (g.group_name = n)) with
  | some g => simp [hfind]
  | none => simp [hfind]

theorem ensure_find_self (s : Session) (f : Option Str) (n : Str) :
    (ensure_faculty_and_group s f n).1.current.groups.find?
      (fun g => decide (g.group_name = n)) =
      some (ensure_faculty_and_group s f n).2 := by
  unfold ensure_faculty_and_group
  cases hfind : (ensureFaculty s f).1.current.groups.find?
      (fun g => decide (g.group_name = n)) with
  | some g =>
    simp [hfind]
  | none =>
    simp only [hfind]
    rw [List.find?_append, hfind]
    simp [List.find?]

theorem ensure_noop (s : Session) (fn : Str) (n : Str) (gr : GroupRow)
    (hfac : fn ≠ [] → ∃ fr ∈ s.current.faculties, fr.name = fn)
    (hfind : s.current.groups.find? (fun g => decide (g.group_name = n)) =
      some gr) :
    ensure_faculty_and_group s (some fn) n = (s, gr) := by
  have hF : (ensureFaculty s (some fn)).1 = s := ensureFaculty_noop s fn hfac
  unfold ensure_faculty_and_group
  simp only [hF, hfind]

theorem upsertLessons_idem (ls : List LessonRow) (gid : Nat) (tn : Str)
    (records : List LessonRec) (hall : ∀ r ∈ records, r.type = tn) :
    upsertLessons (upsertLessons ls gid tn records) gid tn records =
      upsertLessons ls gid tn records := by
  unfold upsertLessons
  rw [List.filter_append]
  have h1 : (ls.filter (fun l => decide (¬ (l.group_id = gid ∧ l.type =
      tn)))).filter (fun l => decide (¬ (l.group_id = gid ∧ l.type = tn))) =
      ls.filter (fun l => decide (¬ (l.group_id = gid ∧ l.type = tn))) := by
    rw [List.filter_eq_self]
    intro a ha
    exact (List.mem_filter.mp ha).2
  have h2 : ((records.map (lessonRowOfRec gid)).filter
      (fun l => decide (¬ (l.group_id = gid ∧ l.type = tn)))) = [] := by
    rw [List.filter_eq_nil_iff]
    intro l hl
    obtain ⟨r, hr, hrl⟩ := List.mem_map.mp hl
    simp only [decide_eq_true_eq, not_not, Decidable.not_not]
    rw [← hrl]
    exact ⟨rfl, hall r hr⟩
  rw [h1, h2, List.append_nil]

/-- C8: running syncGroup twice against an unchanged remote (same catalog
entry, same single timetable document) leaves the store of the second run
identical to the store after the first run — in particular the Lesson rows
of the group are the same — and both calls report the same inserted
count. -/
theorem C8_syncGroup_idempotent :
    ∀ (remote : Remote) (db : DB) (gname : Str) (entries : List CatEntry)
      (entry : CatEntry) (fn : Str) (tt : Timetable) (r0 : LessonRec)
      (rest : List LessonRec),
      lessonsConstraintOK db.lessons →
      ((db.groups.map (fun g => g.group_name))).Nodup →
      remote.groupsResp = .ok (.dict entries) →
      findGroupInfo entries gname = .ok (some entry) →
      entry.facultyName = some fn →
      remote.timetable gname = .ok (.single tt) →
      msgTruthy (.single tt) = false →
      extract_lessons_from_timetable_json gname (.single tt) = r0 :: rest →
      (run_full_sync_for_group remote gname
          (run_full_sync_for_group remote gname db).1).1 =
        (run_full_sync_for_group remote gname db).1
      ∧ (run_full_sync_for_group remote gname db).2 =
          .ok (r0 :: rest).length
      ∧ (run_full_sync_for_group remote gname
          (run_full_sync_for_group remote gname db).1).2 =
          .ok (r0 :: rest).length := by
  intro remote db gname entries entry fn tt r0 rest hok hnames hcat hfound
    hfac htt hmsg hrec
  have htype : ∀ r ∈ r0 :: rest, r.type = r0.type := by
    intro r hr
    have h1 := extract_single_type gname tt r (by rw [hrec]; exact hr)
    have h0 := extract_single_type gname tt r0
      (by rw [hrec]; exact List.mem_cons_self _ _)
    rw [h1, h0]
  have hkeys := extract_single_key7_nodup gname tt
  rw [hrec] at hkeys
  have hbatch : (((r0 :: rest).filter recFullyDefined).map recKey7).Nodup :=
    ((List.filter_sublist _).map recKey7).nodup hkeys
  have hens := ensure_spec (mkSession db) (some fn) gname
  obtain ⟨s3, hcommit, hcc, hcur⟩ := upsert_commit_shape
    (ensure_faculty_and_group (mkSession db) (some fn) gname).1
    (ensure_faculty_and_group (mkSession db) (some fn) gname).2
    r0 rest (by rw [hens.1.1]; exact hok) hbatch htype
  have hrun1 : run_full_sync_for_group remote gname db =
      (s3.committed, .ok (r0 :: rest).length) := by
    unfold run_full_sync_for_group
    simp only [hcat, hfound, hfac, htt, hmsg, hrec, hcommit,
      Bool.false_eq_true, reduceIte]
    simp
    rfl
  -- facts about the store after the first run
  have hfac1 : fn ≠ [] → ∃ fr ∈ s3.committed.faculties, fr.name = fn := by
    intro hfn
    rw [hcc, hcur]
    show ∃ fr ∈ (ensure_faculty_and_group (mkSession db) (some fn)
      gname).1.current.faculties, fr.name = fn
    rw [ensure_faculties_eq]
    exact ensureFaculty_provides (mkSession db) fn hfn
  have hfind1 : s3.committed.groups.find?
      (fun g => decide (g.group_name = gname)) =
      some (ensure_faculty_and_group (mkSession db) (some fn) gname).2 := by
    rw [hcc, hcur]
    show (ensure_faculty_and_group (mkSession db) (some fn)
      gname).1.current.groups.find? (fun g => decide (g.group_name = gname)) = _
    exact ensure_find_self (mkSession db) (some fn) gname
  have hconstraint1 : lessonsConstraintOK s3.committed.lessons := by
    have := (commitS_ok_elim hcommit).1
    have h2 := (commitS_ok_elim hcommit).2
    rw [h2]
    exact this
  have hnoop := ensure_noop (mkSession s3.committed) fn gname
    (ensure_faculty_and_group (mkSession db) (some fn) gname).2 hfac1 hfind1
  obtain ⟨s3', hcommit2, hcc2, hcur2⟩ := upsert_commit_shape
    (mkSession s3.committed)
    (ensure_faculty_and_group (mkSession db) (some fn) gname).2
    r0 rest hconstraint1 hbatch htype
  have hrun2 : run_full_sync_for_group remote gname s3.committed =
      (s3'.committed, .ok (r0 :: rest).length) := by
    unfold run_full_sync_for_group
    simp only [hcat, hfound, hfac, htt, hmsg, hrec, hnoop, hcommit2,
      Bool.false_eq_true, reduceIte]
    simp
    rfl
  have hlessons1 : s3.committed.lessons =
      upsertLessons db.lessons
        (ensure_faculty_and_group (mkSession db) (some fn) gname).2.id
        r0.type (r0 :: rest) := by
    rw [hcc, hcur]
    show upsertLessons (ensure_faculty_and_group (mkSession db) (some fn)
      gname).1.current.lessons _ _ _ = _
    rw [hens.1.1]
    rfl
  have hdb2 : s3'.committed = s3.committed := by
    rw [hcc2, hcur2]
    have hl2 : upsertLessons (mkSession s3.committed).current.lessons
        (ensure_faculty_and_group (mkSession db) (some fn) gname).2.id
        r0.type (r0 :: rest) = s3.committed.lessons := by
      show upsertLessons s3.committed.lessons _ _ _ = _
      rw [hlessons1]
      exact upsertLessons_idem _ _ _ _ htype
    rw [hl2]
    rfl
  refine ⟨?_, ?_, ?_⟩
  · rw [hrun1]
    show (run_full_sync_for_group remote gname s3.committed).1 = s3.committed
    rw [hrun2]
    exact hdb2
  · rw [hrun1]
  · rw [hrun1]
    show (run_full_sync_for_group remote gname s3.committed).2 = _
    rw [hrun2]

/-- Remote of the C8 witness: one group, one single-document timetable. -/
def remoteC8 : Remote :=
  { groupsResp := .ok (.dict [⟨some "G".toList, some "F".toList⟩]),
    timetable := fun _ => .ok (.single docB1) }

/-- The record normalized from the witness document. -/
def recB : LessonRec :=
  ⟨"G".toList, some 1, some 0, some "Math".toList, some "Ivanov".toList,
    some "101".toList, some "every".toList, "classes".toList⟩

/-- Witness for C8 at a concrete remote and the empty store. -/
theorem C8_syncGroup_idempotent_witness :
    (lessonsConstraintOK emptyDB.lessons
      ∧ ((emptyDB.groups.map (fun g => g.group_name))).Nodup
      ∧ remoteC8.groupsResp =
          .ok (.dict [⟨some "G".toList, some "F".toList⟩])
      ∧ findGroupInfo [⟨some "G".toList, some "F".toList⟩] ("G".toList) =
          .ok (some ⟨some "G".toList, some "F".toList⟩)
      ∧ remoteC8.timetable ("G".toList) = .ok (.single docB1)
      ∧ msgTruthy (.single docB1) = false
      ∧ extract_lessons_from_timetable_json ("G".toList) (.single docB1) =
          recB :: [])
    ∧ ((run_full_sync_for_group remoteC8 ("G".toList)
        (run_full_sync_for_group remoteC8 ("G".toList) emptyDB).1).1 =
          (run_full_sync_for_group remoteC8 ("G".toList) emptyDB).1
      ∧ (run_full_sync_for_group remoteC8 ("G".toList) emptyDB).2 =
          .ok (recB :: []).length
      ∧ (run_full_sync_for_group remoteC8 ("G".toList)
          (run_full_sync_for_group remoteC8 ("G".toList) emptyDB).1).2 =
          .ok (recB :: []).length) :=
  ⟨⟨by decide, by decide, rfl, rfl, rfl, by decide, by decide⟩,
    C8_syncGroup_idempotent remoteC8 emptyDB ("G".toList)
      [⟨some "G".toList, some "F".toList⟩]
      ⟨some "G".toList, some "F".toList⟩ ("F".toList) docB1 recB []
      (by decide) (by decide) rfl rfl (by decide) rfl (by decide)
      (by decide)⟩

/-- C3: an exception while processing one catalog group (a timetable fetch
failure, or an IntegrityError on that group's commit) is caught at the
group boundary: the session is rolled back to the committed state — so
Lesson rows committed for earlier groups stay committed unchanged — and
the loop continues with the remaining groups. -/
theorem C3_group_failure_isolation :
    ∀ (remote : Remote) (limit : Option Nat) (gs2 : List CatEntry)
      (g : CatEntry) (s : Session) (valid : List Str) (gname : Str)
      (idx : Nat),
      g.groupName = some gname → gname ≠ [] →
      limitBreak limit idx = false →
      (groupLoop remote limit (g :: gs2) idx (s, valid) =
        groupLoop remote limit gs2 (idx + 1) (processGroup remote (s, valid) g))
      ∧ (∀ e, remote.timetable gname = .error e →
          processGroup remote (s, valid) g = (rollback s, valid)
          ∧ (processGroup remote (s, valid) g).1.committed = s.committed
          ∧ (processGroup remote (s, valid) g).1.current = s.committed
          ∧ (processGroup remote (s, valid) g).1.committed.lessons =
              s.committed.lessons)
      ∧ (∀ tt r0 rest, remote.timetable gname = .ok tt →
          msgTruthy tt = false →
          extract_lessons_from_timetable_json gname tt = r0 :: rest →
          commitS (upsert_lessons_for_group
              (ensure_faculty_and_group s g.facultyName gname).1
              (ensure_faculty_and_group s g.facultyName gname).2
              (r0 :: rest)).1 = .error .integrityError →
          (processGroup remote (s, valid) g).1.committed = s.committed
          ∧ (processGroup remote (s, valid) g).1.current = s.committed
          ∧ (processGroup remote (s, valid) g).1.committed.lessons =
              s.committed.lessons) := by
  intro remote limit gs2 g s valid gname idx hg hgname hlb
  refine ⟨?_, ?_, ?_⟩
  · show (if limitBreak limit idx = true then (s, valid)
        else groupLoop remote limit gs2 (idx + 1)
          (processGroup remote (s, valid) g)) = _
    rw [hlb]
    simp
  · intro e herr
    have hstep : processGroup remote (s, valid) g = (rollback s, valid) := by
      unfold processGroup
      rw [hg]
      simp only [hgname, if_false]
      unfold processGroupNamed
      rw [herr]
    exact ⟨hstep, by rw [hstep]; rfl, by rw [hstep]; rfl, by rw [hstep]; rfl⟩
  · intro tt r0 rest htt hmsg hrec hcommit
    have hstep : processGroup remote (s, valid) g =
        (rollback (upsert_lessons_for_group
          (ensure_faculty_and_group s g.facultyName gname).1
          (ensure_faculty_and_group s g.facultyName gname).2 (r0 :: rest)).1,
          pySetAdd valid gname) := by
      unfold processGroup
      rw [hg]
      simp only [hgname, if_false]
      unfold processGroupNamed
      rw [htt]
      simp only [hmsg, hrec, hcommit, Bool.false_eq_true, reduceIte]
      simp
    have hcomm : (upsert_lessons_for_group
        (ensure_faculty_and_group s g.facultyName gname).1
        (ensure_faculty_and_group s g.facultyName gname).2
        (r0 :: rest)).1.committed = s.committed := by
      have h1 : (upsert_lessons_for_group
          (ensure_faculty_and_group s g.facultyName gname).1
          (ensure_faculty_and_group s g.facultyName gname).2
          (r0 :: rest)).1.committed =
          (ensure_faculty_and_group s g.facultyName gname).1.committed := rfl
      rw [h1]
      exact (ensure_spec s g.facultyName gname).1.2.2.2
    refine ⟨?_, ?_, ?_⟩
    · rw [hstep]
      exact hcomm
    · rw [hstep]
      exact hcomm
    · rw [hstep]
      show (upsert_lessons_for_group _ _ _).1.committed.lessons = _
      rw [hcomm]

/-- Remote of the C3 witness: every timetable fetch fails. -/
def remoteC3 : Remote :=
  { groupsResp := .ok (.dict [⟨some "G".toList, some "F".toList⟩]),
    timetable := fun _ => .error .fetchErr }

/-- Witness for C3 at a concrete failing group and store. -/
theorem C3_group_failure_isolation_witness :
    ((⟨some "G".toList, some "F".toList⟩ : CatEntry).groupName =
        some "G".toList
      ∧ ("G".toList ≠ ([] : Str))
      ∧ limitBreak none 0 = false
      ∧ remoteC3.timetable ("G".toList) = .error .fetchErr)
    ∧ (processGroup remoteC3 (mkSession dbG, [])
          ⟨some "G".toList, some "F".toList⟩ = (rollback (mkSession dbG), [])
      ∧ (processGroup remoteC3 (mkSession dbG, [])
          ⟨some "G".toList, some "F".toList⟩).1.committed =
            (mkSession dbG).committed
      ∧ (processGroup remoteC3 (mkSession dbG, [])
          ⟨some "G".toList, some "F".toList⟩).1.current =
            (mkSession dbG).committed
      ∧ (processGroup remoteC3 (mkSession dbG, [])
          ⟨some "G".toList, some "F".toList⟩).1.committed.lessons =
            (mkSession dbG).committed.lessons) :=
  ⟨⟨rfl, by decide, rfl, rfl⟩,
    (C3_group_failure_isolation remoteC3 none []
      ⟨some "G".toList, some "F".toList⟩ (mkSession dbG) [] ("G".toList) 0
      rfl (by decide) rfl).2.1 .fetchErr rfl⟩

/-- The session and summary-locals state after the three store phases of
run_full_sync (group loop, stale-group deletion, rebuild and cleanup). -/
def syncPipeline (remote : Remote) (faults : Faults) (limit : Option Nat)
    (db : DB) (entries : List CatEntry) : Session × Option (Nat × Nat) :=
  rebuildAndCleanupPhase faults
    (deleteStalePhase faults
      (groupLoop remote limit entries 0 (mkSession db, [])).2
      (groupLoop remote limit entries 0 (mkSession db, [])).1).1

/-- The global state read by the final cache call of run_full_sync. -/
def syncStateAfterPhases (remote : Remote) (faults : Faults)
    (limit : Option Nat) (st : SyncState) (entries : List CatEntry) :
    SyncState :=
  { st with
    cacheEnabled := true
    db := (syncPipeline remote faults limit st.db entries).1.committed }

theorem run_full_sync_ok_unfold (remote : Remote) (faults : Faults)
    (limit : Option Nat) (st : SyncState) (cat : CatalogJson)
    (hcat : remote.groupsResp = .ok cat) (hne : catEntries cat ≠ []) :
    run_full_sync remote faults limit st =
      ((get_cached_professors
          (syncStateAfterPhases remote faults limit st (catEntries cat))).1,
        match (syncPipeline remote faults limit st.db (catEntries cat)).2 with
        | none => .error .nameError
        | some _ => .ok ()) := by
  unfold run_full_sync syncStateAfterPhases syncPipeline
  rw [hcat]
  simp only [if_neg hne]
  cases h2 : (rebuildAndCleanupPhase faults
      (deleteStalePhase faults
        (groupLoop remote limit (catEntries cat) 0 (mkSession st.db, [])).2
        (groupLoop remote limit (catEntries cat) 0
          (mkSession st.db, [])).1).1).2 with
  | none => simp [h2]
  | some p => simp [h2]

/-- Initial global state for the run_full_sync scenarios. -/
def st0 : SyncState := ⟨emptyDB, true, [], false⟩

/-- Remote with one catalog group whose timetable fetch fails. -/
def remoteF : Remote :=
  { groupsResp := .ok (.dict [⟨some "G".toList, some "F".toList⟩]),
    timetable := fun _ => .error .fetchErr }

/-- C2 counterexample: with an exception injected into the catalog-diff
group-deletion phase, run_full_sync still completes and returns normally —
the exception is caught, rolled back and logged inside the run instead of
propagating to the caller. -/
theorem C2_phase_errors_counterexample :
    (Faults.deletePhase ⟨true, false, false⟩ = true)
    ∧ (run_full_sync remoteF ⟨true, false, false⟩ none st0).2 = .ok () :=
  ⟨rfl, by rfl⟩

/-- C2 amended: only a catalog-fetch failure propagates out of
run_full_sync as the raised exception; an exception in the derived-rebuild
or instructor-cleanup phase is caught and rolled back, but leaves the
summary-log locals unbound so the run raises NameError from the final
logging statements instead of the original exception; an exception in the
group-deletion phase is caught and the run completes normally whenever the
later phases bind their locals. -/
theorem C2_phase_errors_amended :
    (∀ (remote : Remote) (faults : Faults) (limit : Option Nat)
        (st : SyncState) (e : PyErr),
      remote.groupsResp = .error e →
      (run_full_sync remote faults limit st).2 = .error e)
    ∧ (∀ (remote : Remote) (faults : Faults) (limit : Option Nat)
        (st : SyncState) (cat : CatalogJson),
      remote.groupsResp = .ok cat → catEntries cat ≠ [] →
      faults.rebuild = true →
      (run_full_sync remote faults limit st).2 = .error .nameError)
    ∧ (∀ (remote : Remote) (faults : Faults) (limit : Option Nat)
        (st : SyncState) (cat : CatalogJson),
      remote.groupsResp = .ok cat → catEntries cat ≠ [] →
      faults.cleanup = true →
      (run_full_sync remote faults limit st).2 = .error .nameError)
    ∧ (∀ (remote : Remote) (faults : Faults) (limit : Option Nat)
        (st : SyncState) (cat : CatalogJson) (p : Nat × Nat),
      remote.groupsResp = .ok cat → catEntries cat ≠ [] →
      (syncPipeline remote faults limit st.db (catEntries cat)).2 = some p →
      (run_full_sync remote faults limit st).2 = .ok ()) := by
  refine ⟨?_, ?_, ?_, ?_⟩
  · intro remote faults limit st e herr
    unfold run_full_sync
    rw [herr]
  · intro remote faults limit st cat hcat hne hrb
    rw [run_full_sync_ok_unfold remote faults limit st cat hcat hne]
    show (match (syncPipeline remote faults limit st.db
        (catEntries cat)).2 with
      | none => (.error .nameError : Except PyErr Unit)
      | some _ => .ok ()) = .error .nameError
    have hnone : (syncPipeline remote faults limit st.db
        (catEntries cat)).2 = none := by
      unfold syncPipeline rebuildAndCleanupPhase
      simp [hrb]
    rw [hnone]
  · intro remote faults limit st cat hcat hne hcl
    rw [run_full_sync_ok_unfold remote faults limit st cat hcat hne]
    show (match (syncPipeline remote faults limit st.db
        (catEntries cat)).2 with
      | none => (.error .nameError : Except PyErr Unit)
      | some _ => .ok ()) = .error .nameError
    have hnone : (syncPipeline remote faults limit st.db
        (catEntries cat)).2 = none := by
      unfold syncPipeline rebuildAndCleanupPhase
      by_cases hrb : faults.rebuild
      · simp [hrb]
      · simp only [hrb, Bool.false_eq_true, reduceIte]
        cases hup : upsert_lessons_for_professors
            (deleteStalePhase faults
              (groupLoop remote limit (catEntries cat) 0
                (mkSession st.db, [])).2
              (groupLoop remote limit (catEntries cat) 0
                (mkSession st.db, [])).1).1 with
        | error e => rfl
        | ok s1 =>
          cases hcm : commitS s1 with
          | error e => simp [hcm]
          | ok s2 => simp [hcm, hcl]
    rw [hnone]
  · intro remote faults limit st cat p hcat hne hsum
    rw [run_full_sync_ok_unfold remote faults limit st cat hcat hne]
    show (match (syncPipeline remote faults limit st.db
        (catEntries cat)).2 with
      | none => (.error .nameError : Except PyErr Unit)
      | some _ => .ok ()) = .ok ()
    rw [hsum]

/-- Witness for C2 amended: the deletion-phase fault scenario completes
normally at a concrete remote and store. -/
theorem C2_phase_errors_amended_witness :
    (remoteF.groupsResp = .ok (.dict [⟨some "G".toList, some "F".toList⟩])
      ∧ catEntries (.dict [⟨some "G".toList, some "F".toList⟩]) ≠ []
      ∧ (syncPipeline remoteF ⟨true, false, false⟩ none st0.db
          (catEntries (.dict [⟨some "G".toList, some "F".toList⟩]))).2 =
        some (0, 0))
    ∧ (run_full_sync remoteF ⟨true, false, false⟩ none st0).2 = .ok () :=
  ⟨⟨rfl, by decide, by rfl⟩,
    C2_phase_errors_amended.2.2.2 remoteF ⟨true, false, false⟩ none st0
      (.dict [⟨some "G".toList, some "F".toList⟩]) (0, 0) rfl (by decide)
      (by rfl)⟩

/-- Pre-run state with a non-empty stale Instructor Directory Cache
snapshot (a professor that is not in the store). -/
def stStale : SyncState :=
  ⟨emptyDB, true, [(⟨99, "Old".toList⟩, normalizeName "Old".toList)], false⟩

/-- C1 evaluation: a full sync that commits a new Professor set completes
with the gate re-enabled, yet the final get_cached_professors call is the
lazy reader, which keeps a non-empty stale snapshot instead of reloading;
the post-run cache is the pre-run snapshot and differs from the directory
built from the just-committed Professor table. -/
theorem C1_cache_stale_after_sync :
    (run_full_sync remoteC8 noFaults none stStale).2 = .ok ()
    ∧ (run_full_sync remoteC8 noFaults none stStale).1.cacheEnabled = true
    ∧ (run_full_sync remoteC8 noFaults none stStale).1.cache = stStale.cache
    ∧ professorsDirectory (run_full_sync remoteC8 noFaults none stStale).1.db
        ≠ (run_full_sync remoteC8 noFaults none stStale).1.cache :=
  ⟨by rfl, by rfl, by rfl, by decide⟩

/-- The derived row for one professor id and one lesson. -/
def plKeyOf (pid : Nat) (l : LessonRow) : ProfessorLessonRow :=
  ⟨pid, l.weekday, l.lesson_number, l.subject, l.rooms, l.week_mark⟩

/-- The instructor names the rebuild extracts from one lesson row. -/
def lessonNames (l : LessonRow) : List Str :=
  extract_professor_names (some (pyStrip (l.professors.getD [])))

/-- The memo dict of the rebuild is consistent with the session: every
memoized (name, id) pair has a matching professor row. -/
def CacheInv (s : Session) (cache : List (Str × Nat)) : Prop :=
  ∀ c ∈ cache, ∃ p ∈ s.current.professors, p.id = c.2 ∧ p.name = c.1

theorem getOrCreateProf_spec (s : Session) (cache : List (Str × Nat))
    (name : Str) (s1 : Session) (cache1 : List (Str × Nat)) (pid : Nat)
    (h : getOrCreateProf s cache name = .ok (s1, cache1, pid)) :
    s1.current.lessons = s.current.lessons
    ∧ s1.current.groups = s.current.groups
    ∧ s1.current.faculties = s.current.faculties
    ∧ s1.current.professorLessons = s.current.professorLessons
    ∧ s1.committed = s.committed
    ∧ (∀ p ∈ s.current.professors, p ∈ s1.current.professors)
    ∧ (CacheInv s cache →
        ∃ p ∈ s1.current.professors, p.id = pid ∧ p.name = name)
    ∧ (CacheInv s cache → CacheInv s1 cache1) := by
  unfold getOrCreateProf at h
  by_cases hmemo : pyFalsyNat ((cache.find?
      (fun p => decide (p.1 = name))).map Prod.snd)
  · rw [if_pos hmemo] at h
    by_cases hlen : (s.current.professors.filter
        (fun p => decide (p.name = name))).length > 1
    · rw [if_pos hlen] at h
      exact absurd h (by simp)
    · rw [if_neg hlen] at h
      cases hhits : s.current.professors.filter
          (fun p => decide (p.name = name)) with
      | cons p rest =>
        rw [hhits] at h
        injection h with h1
        injection h1 with hs hrest
        injection hrest with hcache hpid
        subst hs
        have hpmem : p ∈ s.current.professors ∧ p.name = name := by
          have hmem := List.mem_filter.mp (hhits ▸ List.mem_cons_self p rest)
          exact ⟨hmem.1, by simpa using hmem.2⟩
        refine ⟨rfl, rfl, rfl, rfl, rfl, fun q hq => hq, ?_, ?_⟩
        · intro _
          exact ⟨p, hpmem.1, by rw [← hpid], hpmem.2⟩
        · intro hinv c hc
          rw [← hcache] at hc
          rcases List.mem_append.mp hc with h1 | h1
          · exact hinv c h1
          · simp only [List.mem_singleton] at h1
            subst h1
            exact ⟨p, hpmem.1, rfl, hpmem.2⟩
      | nil =>
        rw [hhits] at h
        injection h with h1
        injection h1 with hs hrest
        injection hrest with hcache hpid
        refine ⟨by rw [← hs], by rw [← hs], by rw [← hs], by rw [← hs],
          by rw [← hs], ?_, ?_, ?_⟩
        · intro q hq
          rw [← hs]
          exact List.mem_append_left _ hq
        · intro _
          refine ⟨⟨s.current.nextId, name⟩, ?_, by rw [← hpid], rfl⟩
          rw [← hs]
          simp
        · intro hinv c hc
          rw [← hcache] at hc
          rcases List.mem_append.mp hc with h1 | h1
          · obtain ⟨q, hq1, hq2⟩ := hinv c h1
            exact ⟨q, by rw [← hs]; exact List.mem_append_left _ hq1, hq2⟩
          · simp only [List.mem_singleton] at h1
            subst h1
            refine ⟨⟨s.current.nextId, name⟩, ?_, rfl, rfl⟩
            rw [← hs]
            simp
  · rw [if_neg hmemo] at h
    injection h with h1
    injection h1 with hs hrest
    injection hrest with hcache hpid
    subst hs
    refine ⟨rfl, rfl, rfl, rfl, rfl, fun q hq => hq, ?_, ?_⟩
    · intro hinv
      cases hfind : cache.find? (fun p => decide (p.1 = name)) with
      | none =>
        rw [hfind] at hmemo
        simp [pyFalsyNat] at hmemo
      | some c =>
        have hcmem : c ∈ cache := List.mem_of_find?_eq_some hfind
        have hcname : c.1 = name := by
          have := List.find?_some hfind
          simpa using this
        obtain ⟨p, hp1, hp2, hp3⟩ := hinv c hcmem
        refine ⟨p, hp1, ?_, by rw [hp3, hcname]⟩
        rw [hp2, ← hpid, hfind]
        rfl
    · intro hinv
      rw [← hcache]
      exact hinv

/-- Session evolution during the rebuild: the other tables are untouched,
nothing is committed, and professor and derived rows only accumulate. -/
def SessionGrow (s t : Session) : Prop :=
  t.current.lessons = s.current.lessons
  ∧ t.current.groups = s.current.groups
  ∧ t.current.faculties = s.current.faculties
  ∧ t.committed = s.committed
  ∧ (∀ p ∈ s.current.professors, p ∈ t.current.professors)
  ∧ (∀ pl ∈ s.current.professorLessons, pl ∈ t.current.professorLessons)

theorem sessionGrow_refl (s : Session) : SessionGrow s s :=
  ⟨rfl, rfl, rfl, rfl, fun _ h => h, fun _ h => h⟩

theorem sessionGrow_trans {s t u : Session} (h1 : SessionGrow s t)
    (h2 : SessionGrow t u) : SessionGrow s u :=
  ⟨h2.1.trans h1.1, h2.2.1.trans h1.2.1, h2.2.2.1.trans h1.2.2.1,
    h2.2.2.2.1.trans h1.2.2.2.1,
    fun p hp => h2.2.2.2.2.1 p (h1.2.2.2.2.1 p hp),
    fun pl hpl => h2.2.2.2.2.2 pl (h1.2.2.2.2.2 pl hpl)⟩

theorem cacheInv_grow {s t : Session} {cache : List (Str × Nat)}
    (hg : SessionGrow s t) (h : CacheInv s cache) : CacheInv t cache :=
  fun c hc => by
    obtain ⟨p, hp1, hp2⟩ := h c hc
    exact ⟨p, hg.2.2.2.2.1 p hp1, hp2⟩

theorem getOrCreateProf_grow {s : Session} {cache : List (Str × Nat)}
    {name : Str} {s1 : Session} {cache1 : List (Str × Nat)} {pid : Nat}
    (h : getOrCreateProf s cache name = .ok (s1, cache1, pid)) :
    SessionGrow s s1 := by
  obtain ⟨h1, h2, h3, h4, h5, h6, _, _⟩ :=
    getOrCreateProf_spec s cache name s1 cache1 pid h
  exact ⟨h1, h2, h3, h5, h6, fun pl hpl => by rw [h4]; exact hpl⟩

theorem sessionGrow_appendPL (s : Session) (key : ProfessorLessonRow) :
    SessionGrow s { s with current := { s.current with
      professorLessons := s.current.professorLessons ++ [key] } } :=
  ⟨rfl, rfl, rfl, rfl, fun _ h => h, fun _ h => List.mem_append_left _ h⟩

theorem rebuildNames_spec (lesson : LessonRow) (names : List Str) :
    ∀ (s : Session) (cache : List (Str × Nat))
      (added : List ProfessorLessonRow) (s1 : Session)
      (cache1 : List (Str × Nat)) (added1 : List ProfessorLessonRow),
      rebuildNames lesson names s cache added = .ok (s1, cache1, added1) →
      SessionGrow s s1
      ∧ (∀ k ∈ added, k ∈ added1)
      ∧ (CacheInv s cache → CacheInv s1 cache1)
      ∧ ((∀ k ∈ added, k ∈ s.current.professorLessons) →
          ∀ k ∈ added1, k ∈ s1.current.professorLessons)
      ∧ (CacheInv s cache →
          ∀ n ∈ names, ∃ p ∈ s1.current.professors, p.name = n ∧
            plKeyOf p.id lesson ∈ added1)
      ∧ (CacheInv s cache →
          ∀ pl ∈ s1.current.professorLessons,
            pl ∈ s.current.professorLessons ∨
            ∃ n ∈ names, ∃ p ∈ s1.current.professors,
              p.id = pl.professor_id ∧ p.name = n
              ∧ pl.weekday = lesson.weekday
              ∧ pl.lesson_number = lesson.lesson_number
              ∧ pl.subject = lesson.subject ∧ pl.rooms = lesson.rooms
              ∧ pl.week_mark = lesson.week_mark) := by
  induction names with
  | nil =>
    intro s cache added s1 cache1 added1 h
    simp only [rebuildNames] at h
    injection h with h1
    injection h1 with hs hrest
    injection hrest with hc ha
    subst hs; subst hc; subst ha
    exact ⟨sessionGrow_refl s, fun k hk => hk, fun hi => hi,
      fun hi => hi, fun _ m hm => absurd hm (List.not_mem_nil m),
      fun _ pl hpl => Or.inl hpl⟩
  | cons n rest ih =>
    intro s cache added s1 cache1 added1 h
    simp only [rebuildNames] at h
    cases hg : getOrCreateProf s cache n with
    | error e =>
      rw [hg] at h
      exact absurd h (by simp)
    | ok t =>
      obtain ⟨sm, cm, pid⟩ := t
      rw [hg] at h
      simp only at h
      obtain ⟨g1, g2, g3, g4, g5, g6, g7, g8⟩ :=
        getOrCreateProf_spec s cache n sm cm pid hg
      have gGrow : SessionGrow s sm := getOrCreateProf_grow hg
      by_cases hk : (⟨pid, lesson.weekday, lesson.lesson_number,
          lesson.subject, lesson.rooms, lesson.week_mark⟩ :
            ProfessorLessonRow) ∈ added
      · rw [if_pos hk] at h
        obtain ⟨Hg, Ha, Hc, Hai, Hn, Hpl⟩ :=
          ih sm cm added s1 cache1 added1 h
        refine ⟨sessionGrow_trans gGrow Hg, Ha, fun hi => Hc (g8 hi),
          ?_, ?_, ?_⟩
        · intro hi
          exact Hai (fun k hk2 => by rw [g4]; exact hi k hk2)
        · intro hi m hm
          rcases List.mem_cons.mp hm with hm | hm
          · subst hm
            obtain ⟨p, hp, hpid, hpname⟩ := g7 hi
            refine ⟨p, Hg.2.2.2.2.1 p hp, hpname, ?_⟩
            rw [plKeyOf, hpid]
            exact Ha _ hk
          · exact Hn (g8 hi) m hm
        · intro hi pl hpl
          rcases Hpl (g8 hi) pl hpl with h1 | ⟨m, hm, p, hp, hrest2⟩
          · rw [g4] at h1
            exact Or.inl h1
          · exact Or.inr ⟨m, List.mem_cons_of_mem n hm, p, hp, hrest2⟩
      · rw [if_neg hk] at h
        have grow2 := sessionGrow_appendPL sm
          ⟨pid, lesson.weekday, lesson.lesson_number, lesson.subject,
            lesson.rooms, lesson.week_mark⟩
        obtain ⟨Hg, Ha, Hc, Hai, Hn, Hpl⟩ :=
          ih _ cm (added ++ [⟨pid, lesson.weekday, lesson.lesson_number,
            lesson.subject, lesson.rooms, lesson.week_mark⟩])
            s1 cache1 added1 h
        refine ⟨sessionGrow_trans (sessionGrow_trans gGrow grow2) Hg,
          fun k hk2 => Ha k (List.mem_append_left _ hk2),
          fun hi => Hc (cacheInv_grow grow2 (g8 hi)), ?_, ?_, ?_⟩
        · intro hi
          refine Hai ?_
          intro k hk2
          rcases List.mem_append.mp hk2 with h1 | h1
          · exact List.mem_append_left _ (by rw [g4]; exact hi k h1)
          · simp only [List.mem_singleton] at h1
            subst h1
            exact List.mem_append_right _ (List.mem_singleton.mpr rfl)
        · intro hi m hm
          rcases List.mem_cons.mp hm with hm | hm
          · subst hm
            obtain ⟨p, hp, hpid, hpname⟩ := g7 hi
            refine ⟨p, Hg.2.2.2.2.1 p hp, hpname, ?_⟩
            rw [plKeyOf, hpid]
            exact Ha _ (List.mem_append_right _ (List.mem_singleton.mpr rfl))
          · exact Hn (cacheInv_grow grow2 (g8 hi)) m hm
        · intro hi pl hpl
          rcases Hpl (cacheInv_grow grow2 (g8 hi)) pl hpl with
            h1 | ⟨m, hm, p, hp, hrest2⟩
          · rcases List.mem_append.mp h1 with h2 | h2
            · rw [g4] at h2
              exact Or.inl h2
            · simp only [List.mem_singleton] at h2
              subst h2
              obtain ⟨p, hp, hpid, hpname⟩ := g7 hi
              exact Or.inr ⟨n, List.mem_cons_self n rest, p,
                Hg.2.2.2.2.1 p hp, hpid, hpname, rfl, rfl, rfl, rfl, rfl⟩
          · exact Or.inr ⟨m, List.mem_cons_of_mem n hm, p, hp, hrest2⟩

theorem lessonNames_nil_of_strip_nil {l : LessonRow}
    (h : pyStrip (l.professors.getD []) = []) : lessonNames l = [] := by
  rw [lessonNames, h]
  simp [extract_professor_names]

theorem rebuildLessons_spec (ls : List LessonRow) :
    ∀ (snap : List LessonRow) (s : Session) (cache : List (Str × Nat))
      (added : List ProfessorLessonRow) (s1 : Session)
      (cache1 : List (Str × Nat)) (added1 : List ProfessorLessonRow),
      (∀ l ∈ ls, l ∈ snap) →
      rebuildLessons ls s cache added = .ok (s1, cache1, added1) →
      SessionGrow s s1
      ∧ (∀ k ∈ added, k ∈ added1)
      ∧ (CacheInv s cache → CacheInv s1 cache1)
      ∧ ((∀ k ∈ added, k ∈ s.current.professorLessons) →
          ∀ k ∈ added1, k ∈ s1.current.professorLessons)
      ∧ (CacheInv s cache →
          ∀ l ∈ ls, ∀ n ∈ lessonNames l,
            ∃ p ∈ s1.current.professors, p.name = n ∧
              plKeyOf p.id l ∈ added1)
      ∧ (CacheInv s cache →
          ∀ pl ∈ s1.current.professorLessons,
            pl ∈ s.current.professorLessons ∨
            ∃ l ∈ snap, ∃ n ∈ lessonNames l,
              ∃ p ∈ s1.current.professors,
                p.id = pl.professor_id ∧ p.name = n
                ∧ pl.weekday = l.weekday
                ∧ pl.lesson_number = l.lesson_number
                ∧ pl.subject = l.subject ∧ pl.rooms = l.rooms
                ∧ pl.week_mark = l.week_mark) := by
  induction ls with
  | nil =>
    intro snap s cache added s1 cache1 added1 _ h
    simp only [rebuildLessons] at h
    injection h with h1
    injection h1 with hs hrest
    injection hrest with hc ha
    subst hs; subst hc; subst ha
    exact ⟨sessionGrow_refl s, fun k hk => hk, fun hi => hi,
      fun hi => hi, fun _ m hm => absurd hm (List.not_mem_nil m),
      fun _ pl hpl => Or.inl hpl⟩
  | cons l rest ih =>
    intro snap s cache added s1 cache1 added1 hsub h
    have hsub2 : ∀ x ∈ rest, x ∈ snap :=
      fun x hx => hsub x (List.mem_cons_of_mem l hx)
    simp only [rebuildLessons] at h
    by_cases h1 : pyStrip (l.professors.getD []) = []
    · rw [if_pos h1] at h
      obtain ⟨Hg, Ha, Hc, Hai, Hn, Hpl⟩ :=
        ih snap s cache added s1 cache1 added1 hsub2 h
      refine ⟨Hg, Ha, Hc, Hai, ?_, Hpl⟩
      intro hi m hm
      rcases List.mem_cons.mp hm with hm | hm
      · subst hm
        intro n hn
        rw [lessonNames_nil_of_strip_nil h1] at hn
        exact absurd hn (List.not_mem_nil n)
      · exact Hn hi m hm
    · rw [if_neg h1] at h
      by_cases h2 : extract_professor_names
          (some (pyStrip (l.professors.getD []))) = []
      · rw [if_pos h2] at h
        obtain ⟨Hg, Ha, Hc, Hai, Hn, Hpl⟩ :=
          ih snap s cache added s1 cache1 added1 hsub2 h
        refine ⟨Hg, Ha, Hc, Hai, ?_, Hpl⟩
        intro hi m hm
        rcases List.mem_cons.mp hm with hm | hm
        · subst hm
          intro n hn
          have hn2 : n ∈ ([] : List Str) := h2 ▸ hn
          exact absurd hn2 (List.not_mem_nil n)
        · exact Hn hi m hm
      · rw [if_neg h2] at h
        cases hrb : rebuildNames l (extract_professor_names
            (some (pyStrip (l.professors.getD [])))) s cache added with
        | error e =>
          rw [hrb] at h
          exact absurd h (by simp)
        | ok t =>
          obtain ⟨sm, cm, am⟩ := t
          rw [hrb] at h
          simp only at h
          obtain ⟨Ng, Na, Nc, Nai, Nn, Npl⟩ :=
            rebuildNames_spec l _ s cache added sm cm am hrb
          obtain ⟨Rg, Ra, Rc, Rai, Rn, Rpl⟩ :=
            ih snap sm cm am s1 cache1 added1 hsub2 h
          refine ⟨sessionGrow_trans Ng Rg,
            fun k hk => Ra k (Na k hk), fun hi => Rc (Nc hi), ?_, ?_, ?_⟩
          · intro hi
            exact Rai (Nai hi)
          · intro hi m hm
            rcases List.mem_cons.mp hm with hm | hm
            · subst hm
              intro n hn
              obtain ⟨p, hp, hpname, hkey⟩ := Nn hi n hn
              exact ⟨p, Rg.2.2.2.2.1 p hp, hpname, Ra _ hkey⟩
            · exact Rn (Nc hi) m hm
          · intro hi pl hpl
            rcases Rpl (Nc hi) pl hpl with h3 | ⟨l2, hl2, n, hn, p, hp, hr⟩
            · rcases Npl hi pl h3 with h4 | ⟨n, hn, p, hp, hr⟩
              · exact Or.inl h4
              · exact Or.inr ⟨l, hsub l (List.mem_cons_self l rest), n, hn,
                  p, Rg.2.2.2.2.1 p hp, hr⟩
            · exact Or.inr ⟨l2, hl2, n, hn, p, hp, hr⟩

theorem upsert_lessons_for_professors_spec (s s1 : Session)
    (h : upsert_lessons_for_professors s = .ok s1) :
    s1.current.lessons = s.current.lessons
    ∧ s1.current.groups = s.current.groups
    ∧ s1.current.faculties = s.current.faculties
    ∧ s1.committed = s.committed
    ∧ (∀ l ∈ s.current.lessons, ∀ n ∈ lessonNames l,
        ∃ p ∈ s1.current.professors, p.name = n ∧
          plKeyOf p.id l ∈ s1.current.professorLessons)
    ∧ (∀ pl ∈ s1.current.professorLessons,
        ∃ l ∈ s.current.lessons, ∃ n ∈ lessonNames l,
          ∃ p ∈ s1.current.professors,
            p.id = pl.professor_id ∧ p.name = n
            ∧ pl.weekday = l.weekday ∧ pl.lesson_number = l.lesson_number
            ∧ pl.subject = l.subject ∧ pl.rooms = l.rooms
            ∧ pl.week_mark = l.week_mark) := by
  simp only [upsert_lessons_for_professors] at h
  cases hr : rebuildLessons s.current.lessons
      { s with current := { s.current with professorLessons := [] } }
      [] [] with
  | error e =>
    rw [hr] at h
    exact absurd h (by simp)
  | ok t =>
    obtain ⟨sr, cr, ar⟩ := t
    rw [hr] at h
    simp only at h
    injection h with h1
    subst h1
    obtain ⟨Hg, Ha, Hc, Hai, Hn, Hpl⟩ :=
      rebuildLessons_spec s.current.lessons s.current.lessons
        { s with current := { s.current with professorLessons := [] } }
        [] [] sr cr ar (fun l hl => hl) hr
    have hinv : CacheInv { s with current :=
        { s.current with professorLessons := [] } } [] :=
      fun c hc => absurd hc (List.not_mem_nil c)
    have har : ∀ k ∈ ar, k ∈ sr.current.professorLessons :=
      Hai (fun k hk => absurd hk (List.not_mem_nil k))
    refine ⟨Hg.1, Hg.2.1, Hg.2.2.1, Hg.2.2.2.1, ?_, ?_⟩
    · intro l hl n hn
      obtain ⟨p, hp, hpname, hkey⟩ := Hn hinv l hl n hn
      exact ⟨p, hp, hpname, har _ hkey⟩
    · intro pl hpl
      rcases Hpl hinv pl hpl with h2 | ⟨l, hl, n, hn, p, hp, hr2⟩
      · exact absurd h2 (List.not_mem_nil pl)
      · exact ⟨l, hl, n, hn, p, hp, hr2⟩

theorem commitS_ne_error {s : Session}
    (h : lessonsConstraintOK s.current.lessons) (e : PyErr) :
    commitS s ≠ .error e := by
  unfold commitS
  rw [if_pos h]
  simp

theorem rebuildAndCleanupPhase_some (faults : Faults) (s r : Session)
    (q : Nat × Nat) (h : rebuildAndCleanupPhase faults s = (r, some q)) :
    ∃ s1, upsert_lessons_for_professors s = .ok s1 ∧
      r.committed = { s1.current with
        professors := s1.current.professors.filter (fun p =>
          decide (¬ p.id ∈ ((s1.current.professors.filter (fun p2 =>
            decide ((s1.current.professorLessons.filter
              (fun pl => decide (pl.professor_id = p2.id))) = []))).map
                (·.id)))) } := by
  unfold rebuildAndCleanupPhase at h
  by_cases hrb : faults.rebuild
  · rw [if_pos hrb] at h
    exact absurd (congrArg Prod.snd h) (by simp)
  · rw [if_neg hrb] at h
    cases hup : upsert_lessons_for_professors s with
    | error e =>
      rw [hup] at h
      exact absurd (congrArg Prod.snd h) (by simp)
    | ok s1 =>
      rw [hup] at h
      simp only at h
      cases hcm : commitS s1 with
      | error e =>
        rw [hcm] at h
        exact absurd (congrArg Prod.snd h) (by simp)
      | ok s2 =>
        rw [hcm] at h
        simp only at h
        obtain ⟨hok, hs2⟩ := commitS_ok_elim hcm
        subst hs2
        by_cases hcl : faults.cleanup
        · rw [if_pos hcl] at h
          exact absurd (congrArg Prod.snd h) (by simp)
        · rw [if_neg hcl] at h
          simp only at h
          refine ⟨s1, rfl, ?_⟩
          split at h
          · rename_i s4 heq
            obtain ⟨_, hs4⟩ := commitS_ok_elim heq
            injection h with h1 h2
            subst h1
            rw [hs4]
          · rename_i e heq
            refine absurd heq (commitS_ne_error ?_ e)
            exact hok

theorem get_cached_professors_db (st : SyncState) :
    (get_cached_professors st).1.db = st.db := by
  unfold get_cached_professors
  by_cases h1 : st.cacheEnabled = false
  · rw [if_pos h1]
  · rw [if_neg h1]
    by_cases h2 : st.cache = []
    · rw [if_pos h2]
    · rw [if_neg h2]

theorem cleaned_db_consistent (sdel s1 : Session)
    (hup : upsert_lessons_for_professors sdel = .ok s1) :
    ∀ db : DB, db = { s1.current with
        professors := s1.current.professors.filter (fun p =>
          decide (¬ p.id ∈ ((s1.current.professors.filter (fun p2 =>
            decide ((s1.current.professorLessons.filter
              (fun pl => decide (pl.professor_id = p2.id))) = []))).map
                (·.id)))) } →
      (∀ l ∈ db.lessons, ∀ n ∈ lessonNames l, ∃ p ∈ db.professors,
          p.name = n ∧ plKeyOf p.id l ∈ db.professorLessons)
      ∧ (∀ pl ∈ db.professorLessons, ∃ l ∈ db.lessons, ∃ n ∈ lessonNames l,
          ∃ p ∈ db.professors, p.id = pl.professor_id ∧ p.name = n
            ∧ pl.weekday = l.weekday ∧ pl.lesson_number = l.lesson_number
            ∧ pl.subject = l.subject ∧ pl.rooms = l.rooms
            ∧ pl.week_mark = l.week_mark)
      ∧ (∀ p ∈ db.professors,
          db.professorLessons.filter
            (fun pl => decide (pl.professor_id = p.id)) ≠ []) := by
  intro db hdb
  subst hdb
  obtain ⟨u1, _, _, _, u5, u6⟩ := upsert_lessons_for_professors_spec sdel s1 hup
  refine ⟨?_, ?_, ?_⟩
  · intro l hl n hn
    have hl2 : l ∈ sdel.current.lessons := by
      rw [← u1]
      exact hl
    obtain ⟨p, hp, hpname, hkey⟩ := u5 l hl2 n hn
    have hnotstale : ¬ p.id ∈ ((s1.current.professors.filter (fun p2 =>
        decide ((s1.current.professorLessons.filter
          (fun pl => decide (pl.professor_id = p2.id))) = []))).map
            (·.id)) := by
      intro hmem
      obtain ⟨p2, hp2mem, hp2id⟩ := List.mem_map.mp hmem
      have hp2 := List.mem_filter.mp hp2mem
      have hempty : s1.current.professorLessons.filter
          (fun pl => decide (pl.professor_id = p2.id)) = [] := by
        simpa using hp2.2
      have hkmem : plKeyOf p.id l ∈ s1.current.professorLessons.filter
          (fun pl => decide (pl.professor_id = p2.id)) :=
        List.mem_filter.mpr ⟨hkey, by simp [plKeyOf, hp2id]⟩
      rw [hempty] at hkmem
      exact absurd hkmem (List.not_mem_nil _)
    exact ⟨p, List.mem_filter.mpr ⟨hp, by simpa using hnotstale⟩,
      hpname, hkey⟩
  · intro pl hpl
    obtain ⟨l, hl, n, hn, p, hp, hpid, hpname, hf⟩ := u6 pl hpl
    have hl2 : l ∈ s1.current.lessons := by
      rw [u1]
      exact hl
    have hnotstale : ¬ p.id ∈ ((s1.current.professors.filter (fun p2 =>
        decide ((s1.current.professorLessons.filter
          (fun pl2 => decide (pl2.professor_id = p2.id))) = []))).map
            (·.id)) := by
      intro hmem
      obtain ⟨p2, hp2mem, hp2id⟩ := List.mem_map.mp hmem
      have hp2 := List.mem_filter.mp hp2mem
      have hempty : s1.current.professorLessons.filter
          (fun pl2 => decide (pl2.professor_id = p2.id)) = [] := by
        simpa using hp2.2
      have hkmem : pl ∈ s1.current.professorLessons.filter
          (fun pl2 => decide (pl2.professor_id = p2.id)) :=
        List.mem_filter.mpr ⟨hpl, by simp [← hpid, hp2id]⟩
      rw [hempty] at hkmem
      exact absurd hkmem (List.not_mem_nil _)
    exact ⟨l, hl2, n, hn, p,
      List.mem_filter.mpr ⟨hp, by simpa using hnotstale⟩,
      hpid, hpname, hf⟩
  · intro p hp
    have hp2 := List.mem_filter.mp hp
    have hnot : ¬ p.id ∈ ((s1.current.professors.filter (fun p2 =>
        decide ((s1.current.professorLessons.filter
          (fun pl => decide (pl.professor_id = p2.id))) = []))).map
            (·.id)) := by
      simpa using hp2.2
    intro hempty
    refine hnot (List.mem_map.mpr ⟨p, List.mem_filter.mpr ⟨hp2.1, ?_⟩, rfl⟩)
    simpa using hempty

/-- C9: after a run_full_sync that completes normally over a non-empty
catalog, the committed store is derived-consistent: every instructor name
extracted from any stored Lesson row has a matching Professor row and a
ProfessorLesson row agreeing with that lesson on weekday, slot, subject,
rooms and week parity; every ProfessorLesson row arises from some stored
Lesson row and one of its extracted instructor names; and no Professor row
with zero ProfessorLesson rows survives (the cleanup deleted it). -/
theorem C9_derived_consistency (remote : Remote) (faults : Faults)
    (limit : Option Nat) (st : SyncState) (cat : CatalogJson)
    (hcat : remote.groupsResp = .ok cat)
    (hne : catEntries cat ≠ [])
    (hdone : (run_full_sync remote faults limit st).2 = .ok ()) :
    (∀ l ∈ (run_full_sync remote faults limit st).1.db.lessons,
      ∀ n ∈ lessonNames l,
        ∃ p ∈ (run_full_sync remote faults limit st).1.db.professors,
          p.name = n ∧ plKeyOf p.id l ∈
            (run_full_sync remote faults limit st).1.db.professorLessons)
    ∧ (∀ pl ∈ (run_full_sync remote faults limit st).1.db.professorLessons,
        ∃ l ∈ (run_full_sync remote faults limit st).1.db.lessons,
          ∃ n ∈ lessonNames l,
            ∃ p ∈ (run_full_sync remote faults limit st).1.db.professors,
              p.id = pl.professor_id ∧ p.name = n
              ∧ pl.weekday = l.weekday ∧ pl.lesson_number = l.lesson_number
              ∧ pl.subject = l.subject ∧ pl.rooms = l.rooms
              ∧ pl.week_mark = l.week_mark)
    ∧ (∀ p ∈ (run_full_sync remote faults limit st).1.db.professors,
        (run_full_sync remote faults limit st).1.db.professorLessons.filter
          (fun pl => decide (pl.professor_id = p.id)) ≠ []) := by
  have hun := run_full_sync_ok_unfold remote faults limit st cat hcat hne
  rw [hun] at hdone
  simp only at hdone
  cases hrc : (syncPipeline remote faults limit st.db (catEntries cat)).2 with
  | none =>
    rw [hrc] at hdone
    exact absurd hdone (by simp)
  | some q =>
    have hphase : rebuildAndCleanupPhase faults
        (deleteStalePhase faults
          (groupLoop remote limit (catEntries cat) 0 (mkSession st.db, [])).2
          (groupLoop remote limit (catEntries cat) 0
            (mkSession st.db, [])).1).1
        = ((syncPipeline remote faults limit st.db (catEntries cat)).1,
            some q) := by
      rw [← hrc]
      exact Prod.mk.eta.symm
    obtain ⟨s1, hup, hcommitted⟩ :=
      rebuildAndCleanupPhase_some faults _ _ q hphase
    have hdbeq : (run_full_sync remote faults limit st).1.db =
        { s1.current with
          professors := s1.current.professors.filter (fun p =>
            decide (¬ p.id ∈ ((s1.current.professors.filter (fun p2 =>
              decide ((s1.current.professorLessons.filter
                (fun pl => decide (pl.professor_id = p2.id))) = []))).map
                  (·.id)))) } := by
      rw [hun]
      simp only
      rw [get_cached_professors_db]
      exact hcommitted
    exact cleaned_db_consistent _ s1 hup
      ((run_full_sync remote faults limit st).1.db) hdbeq

/-- Witness for C9 at a concrete run: the one-group catalog whose
single-document timetable stores one lesson taught by Ivanov; the run
completes normally and the consistency conclusions follow. -/
theorem C9_derived_consistency_witness :
    (remoteC8.groupsResp = .ok (.dict [⟨some "G".toList, some "F".toList⟩])
      ∧ catEntries (.dict [⟨some "G".toList, some "F".toList⟩]) ≠ []
      ∧ (run_full_sync remoteC8 noFaults none st0).2 = .ok ())
    ∧ ((∀ l ∈ (run_full_sync remoteC8 noFaults none st0).1.db.lessons,
        ∀ n ∈ lessonNames l,
          ∃ p ∈ (run_full_sync remoteC8 noFaults none st0).1.db.professors,
            p.name = n ∧ plKeyOf p.id l ∈
              (run_full_sync remoteC8 noFaults
                none st0).1.db.professorLessons)
      ∧ (∀ pl ∈ (run_full_sync remoteC8 noFaults
            none st0).1.db.professorLessons,
          ∃ l ∈ (run_full_sync remoteC8 noFaults none st0).1.db.lessons,
            ∃ n ∈ lessonNames l,
              ∃ p ∈ (run_full_sync remoteC8 noFaults
                  none st0).1.db.professors,
                p.id = pl.professor_id ∧ p.name = n
                ∧ pl.weekday = l.weekday ∧ pl.lesson_number = l.lesson_number
                ∧ pl.subject = l.subject ∧ pl.rooms = l.rooms
                ∧ pl.week_mark = l.week_mark)
      ∧ (∀ p ∈ (run_full_sync remoteC8 noFaults none st0).1.db.professors,
          ((run_full_sync remoteC8 noFaults
              none st0).1.db.professorLessons.filter
            (fun pl => decide (pl.professor_id = p.id))) ≠ [])) :=
  ⟨⟨rfl, by decide, by rfl⟩,
    C9_derived_consistency remoteC8 noFaults none st0
      (.dict [⟨some "G".toList, some "F".toList⟩]) rfl (by decide) (by rfl)⟩

/-- Models sync_lock.set_sync_running: acquire the global asyncio lock
(the caller holds it afterwards). -/
def set_sync_running (st : SyncState) : SyncState :=
  { st with syncLockLocked := true }

/-- Models sync_lock.set_sync_finished: release the lock when held. -/
def set_sync_finished (st : SyncState) : SyncState :=
  if st.syncLockLocked then { st with syncLockLocked := false } else st

/-- Models sync_lock.is_sync_running: whether the lock is held. -/
def is_sync_running (st : SyncState) : Bool := st.syncLockLocked

theorem get_cached_professors_lock (st : SyncState) :
    (get_cached_professors st).1.syncLockLocked = st.syncLockLocked := by
  unfold get_cached_professors
  by_cases h1 : st.cacheEnabled = false
  · rw [if_pos h1]
  · rw [if_neg h1]
    by_cases h2 : st.cache = []
    · rw [if_pos h2]
    · rw [if_neg h2]

theorem run_full_sync_lock (remote : Remote) (faults : Faults)
    (limit : Option Nat) (st : SyncState) :
    (run_full_sync remote faults limit st).1.syncLockLocked
      = st.syncLockLocked := by
  unfold run_full_sync
  cases hcat : remote.groupsResp with
  | error e =>
    simp only
    exact get_cached_professors_lock st
  | ok cat =>
    by_cases hne : catEntries cat = []
    · simp only [if_pos hne]
      exact get_cached_professors_lock st
    · simp only [if_neg hne]
      cases hrc : (rebuildAndCleanupPhase faults
          (deleteStalePhase faults
            (groupLoop remote limit (catEntries cat) 0
              (mkSession st.db, [])).2
            (groupLoop remote limit (catEntries cat) 0
              (mkSession st.db, [])).1).1).2 with
      | none =>
        simp only
        rw [get_cached_professors_lock]
      | some p =>
        simp only
        rw [get_cached_professors_lock]

theorem run_full_sync_lock_independent (remote : Remote) (faults : Faults)
    (limit : Option Nat) (st : SyncState) (b : Bool) :
    (run_full_sync remote faults limit { st with syncLockLocked := b }).2
      = (run_full_sync remote faults limit st).2
    ∧ (run_full_sync remote faults limit
        { st with syncLockLocked := b }).1.db
      = (run_full_sync remote faults limit st).1.db := by
  unfold run_full_sync
  cases hcat : remote.groupsResp with
  | error e =>
    simp only
    exact ⟨trivial, by rw [get_cached_professors_db, get_cached_professors_db]⟩
  | ok cat =>
    by_cases hne : catEntries cat = []
    · simp only [if_pos hne]
      exact ⟨trivial, by rw [get_cached_professors_db, get_cached_professors_db]⟩
    · simp only [if_neg hne]
      cases hrc : (rebuildAndCleanupPhase faults
          (deleteStalePhase faults
            (groupLoop remote limit (catEntries cat) 0
              (mkSession st.db, [])).2
            (groupLoop remote limit (catEntries cat) 0
              (mkSession st.db, [])).1).1).2 with
      | none =>
        simp only
        exact ⟨trivial, by rw [get_cached_professors_db, get_cached_professors_db]⟩
      | some p =>
        simp only
        exact ⟨trivial, by rw [get_cached_professors_db, get_cached_professors_db]⟩

/-- The first atomic section of run_full_sync as seen from the shared
committed store: the per-group loop with its per-group commits. At the
await boundary after its last commit the session's view coincides with
the committed store (a new transaction re-reads it), so the section is a
function of the shared store that publishes a store and the valid set. -/
def syncLoopSegment (remote : Remote) (limit : Option Nat)
    (entries : List CatEntry) (db : DB) : DB × List Str :=
  let gl := groupLoop remote limit entries 0 (mkSession db, [])
  (gl.1.committed, gl.2)

/-- The remaining sections of run_full_sync: the stale-group deletion, the
derived rebuild and the instructor cleanup, resumed on the then-current
committed store, publishing the final store and the summary locals. -/
def syncFinishSegment (faults : Faults) (valid : List Str) (db : DB) :
    DB × Option (Nat × Nat) :=
  let del := deleteStalePhase faults valid (mkSession db)
  let rc := rebuildAndCleanupPhase faults del.1
  (rc.1.committed, rc.2)

/-- A second sync request arriving while the first is in progress: its
catalog holds group H instead of G, over the same timetable document. -/
def remoteB : Remote :=
  { groupsResp := .ok (.dict [⟨some "H".toList, some "F".toList⟩]),
    timetable := fun _ => .ok (.single docB1) }

/-- The catalog entries of the first run. -/
def entriesA : List CatEntry := [⟨some "G".toList, some "F".toList⟩]

/-- The shared store after the first run's group-loop commits. -/
def dbA1 : DB := (syncLoopSegment remoteC8 none entriesA emptyDB).1

/-- The valid-group set the first run accumulated before the interleave. -/
def validA : List Str := (syncLoopSegment remoteC8 none entriesA emptyDB).2

/-- The shared store after the second run executes completely between the
first run's group-loop commit and its deletion phase. -/
def dbB : DB :=
  (run_full_sync remoteB noFaults none ⟨dbA1, true, [], false⟩).1.db

/-- C4 counterexample: an interleaving in which a second sync request is
made while a first run_full_sync is in progress (after its group-loop
commit), is neither blocked nor rejected, runs to completion, and the two
runs' writes to the shared store interleave A, B, A — each of the three
writes changes the store. Composing the first run's two segments with no
interleave reproduces run_full_sync's own result, so the segments are
exactly that run's execution split at an await point. -/
theorem C4_single_flight_counterexample :
    ((run_full_sync remoteB noFaults none ⟨dbA1, true, [], false⟩).2
        = .ok ())
    ∧ (syncFinishSegment noFaults validA dbB).2.isSome = true
    ∧ is_sync_running ⟨dbA1, true, [], false⟩ = false
    ∧ dbA1 ≠ emptyDB
    ∧ dbB ≠ dbA1
    ∧ (syncFinishSegment noFaults validA dbB).1 ≠ dbB
    ∧ (syncFinishSegment noFaults validA dbA1).1
        = (run_full_sync remoteC8 noFaults none st0).1.db :=
  ⟨by rfl, by rfl, rfl, by decide, by decide, by decide, by rfl⟩

/-- C4 amended: the repository defines the single-flight lock of
sync_lock.py (acquiring marks a sync running, releasing clears it), but no
synchronization entry point uses it: run_full_sync never takes or releases
the lock (the flag is unchanged by every run), and never consults it — a
run started while the lock is held proceeds to the identical outcome and
identical committed store instead of blocking or being rejected. -/
theorem C4_sync_lock_unused_amended :
    (∀ st : SyncState, is_sync_running (set_sync_running st) = true)
    ∧ (∀ st : SyncState, is_sync_running (set_sync_finished st) = false)
    ∧ (∀ (remote : Remote) (faults : Faults) (limit : Option Nat)
        (st : SyncState),
        (run_full_sync remote faults limit st).1.syncLockLocked
          = st.syncLockLocked)
    ∧ (∀ (remote : Remote) (faults : Faults) (limit : Option Nat)
        (st : SyncState) (b : Bool),
        (run_full_sync remote faults limit
            { st with syncLockLocked := b }).2
          = (run_full_sync remote faults limit st).2
        ∧ (run_full_sync remote faults limit
            { st with syncLockLocked := b }).1.db
          = (run_full_sync remote faults limit st).1.db) := by
  refine ⟨fun st => rfl, fun st => ?_, run_full_sync_lock,
    run_full_sync_lock_independent⟩
  unfold set_sync_finished is_sync_running
  by_cases h : st.syncLockLocked
  · rw [if_pos h]
  · rw [if_neg h]
    simpa using h
